import Mathlib

/-!
Verification development for the Decomposition Engine of the
`thinking-patterns` repository (source: the decomposition MCP server).

The engine keeps Problems and Components in string-keyed records, maintains a
directed dependency graph between components, computes structural metrics
(maximum dependency depth, balance score) and tracks a phase history whose
entries snapshot those metrics.

Shallow-embedding conventions used throughout this file:
* JavaScript `Record<string, T>` objects are association lists
  `List (String × T)` with JavaScript semantics: assignment replaces the value
  of an existing key in place and appends a fresh key at the end, so that
  `Object.values` (here: `List.map Prod.snd`) enumerates in insertion order.
* `Date.now()` is an explicit `now : Nat` argument of every request.
* JavaScript numbers that carry counts are `Nat`, complexities and averages
  are `ℚ`, and the balance score (which goes through `Math.sqrt`) is `ℝ`.
* The typed embedding makes the `typeof` checks of the validators vacuous;
  the remaining truthiness checks (`!data.foo` on a string) become `= ""`
  tests, mirroring that the empty string is falsy.
* The recursive traversals (`checkCircular` in `linkComponents`, the `dfs` of
  `calculateMaxDepth`) use explicit fuel; the source recurses on the call
  stack.  Fuel exhaustion is a distinguished error/`none` result, and it is
  proved unreachable for the fuel the wrappers pass
  (`checkCircularGo_fuel_ok`, `calculateMaxDepth_total`).
* Thrown `Error`s are `Except.error` with the thrown message; the `try/catch`
  of `processRequest` is the final `match` of `processRequest`, which returns
  the failure envelope together with the pre-call state.  As in the source,
  every case performs all of its `throw`s before its first store write.
* The property read `components[currentId].dependencies` on an `undefined`
  entry (possible because `updateComponent` stores dependency ids without
  validating them) throws a TypeError at runtime; it is embedded as the
  error string "TypeError: cannot read dependencies of undefined".
-/

namespace ThinkingPatterns

/-- JavaScript object lookup `obj[k]` on a string-keyed record. -/
def alistLookup {α : Type} : List (String × α) → String → Option α
  | [], _ => none
  | (k, v) :: rest, key => if k = key then some v else alistLookup rest key

/-- JavaScript object assignment `obj[k] = v`: replace in place if the key is
present, append at the end otherwise. -/
def alistUpsert {α : Type} : List (String × α) → String → α → List (String × α)
  | [], key, v => [(key, v)]
  | (k, w) :: rest, key, v =>
    if k = key then (k, v) :: rest else (k, w) :: alistUpsert rest key v

/-- Component status enumeration of the source. -/
inductive CStatus where
  | pending
  | inProgress
  | completed
deriving DecidableEq

/-- `ProblemData` of the source. -/
structure ProblemData where
  problemId : String
  problemStatement : String
  complexity : ℚ
  domain : String
  constraints : List String
  createdAt : Nat
deriving DecidableEq

/-- `ComponentData` of the source.  The open-ended metadata bag is embedded as
a string-to-string association list. -/
structure ComponentData where
  componentId : String
  parentProblemId : String
  name : String
  description : String
  dependencies : List String
  status : CStatus
  complexity : ℚ
  createdAt : Nat
  updatedAt : Nat
  metadata : List (String × String)
deriving DecidableEq

/-- `DecompositionMetrics` of the source.  The balance score goes through
`Math.sqrt` and is therefore a real number. -/
structure DecompositionMetrics where
  componentCount : Nat
  averageComplexity : ℚ
  maxDepth : Nat
  dependencyCount : Nat
  balanceScore : ℝ

/-- `DecompositionPhase` of the source. -/
structure DecompositionPhase where
  phaseId : String
  phaseName : String
  description : String
  startedAt : Nat
  completedAt : Option Nat
  metrics : DecompositionMetrics

/-- `DecompositionState` of the source. -/
structure DecompositionState where
  problems : List (String × ProblemData)
  components : List (String × ComponentData)
  decompositionPhases : List DecompositionPhase
  currentPhaseIndex : Int

/-- `initializeState` of the source. -/
def initialState : DecompositionState :=
  { problems := []
    components := []
    decompositionPhases := []
    currentPhaseIndex := -1 }

/-- Raw payload of a `createProblem`/`updateProblem` request; optional fields
are the ones the schema marks optional. -/
structure ProblemInput where
  problemId : String
  problemStatement : String
  complexity : Option ℚ
  domain : Option String
  constraints : Option (List String)

/-- Raw payload of a `createComponent`/`updateComponent` request. -/
structure ComponentInput where
  componentId : String
  parentProblemId : String
  name : String
  description : String
  dependencies : Option (List String)
  status : Option CStatus
  complexity : Option ℚ
  metadata : Option (List (String × String))

/-- Raw payload of a `startPhase` request. -/
structure PhaseInput where
  phaseId : String
  phaseName : String
  description : String

/-- The action requests the dispatcher recognises, plus the unknown-action
fallthrough. -/
inductive Request where
  | createProblem (d : ProblemInput)
  | updateProblem (d : ProblemInput)
  | createComponent (d : ComponentInput)
  | updateComponent (d : ComponentInput)
  | linkComponents (sourceId targetId : String)
  | startPhase (d : PhaseInput)
  | completePhase (phaseId problemId : String)
  | calculateMetricsAction (problemId : String)
  | getDecomposition (problemId : String)
  | getComponentDetails (componentId : String)
  | getProblemDetails (problemId : String)
  | getPhaseHistory
  | unknownAction (action : String)

/-- `validateProblemData` of the source: the checks in source order, then the
defaulting of the optional fields (`|| 5`, `|| ''`, `|| []`; every value that
passed validation is truthy, so `Option.getD` is exact). -/
def validateProblemData (now : Nat) (d : ProblemInput) : Except String ProblemData :=
  if d.problemStatement = "" then
    Except.error "Invalid problemStatement: must be a string"
  else if d.problemId = "" then
    Except.error "Invalid problemId: must be a string"
  else if d.complexity.any (fun c => c < 1 ∨ 10 < c) then
    Except.error "Invalid complexity: must be a number between 1 and 10"
  else
    Except.ok
      { problemStatement := d.problemStatement
        problemId := d.problemId
        complexity := d.complexity.getD 5
        domain := d.domain.getD ""
        constraints := d.constraints.getD []
        createdAt := now }

/-- `validateComponentData` of the source. -/
def validateComponentData (now : Nat) (d : ComponentInput) : Except String ComponentData :=
  if d.componentId = "" then
    Except.error "Invalid componentId: must be a string"
  else if d.parentProblemId = "" then
    Except.error "Invalid parentProblemId: must be a string"
  else if d.name = "" then
    Except.error "Invalid name: must be a string"
  else if d.description = "" then
    Except.error "Invalid description: must be a string"
  else if d.complexity.any (fun c => c < 1 ∨ 10 < c) then
    Except.error "Invalid complexity: must be a number between 1 and 10"
  else
    Except.ok
      { componentId := d.componentId
        parentProblemId := d.parentProblemId
        name := d.name
        description := d.description
        dependencies := d.dependencies.getD []
        status := d.status.getD CStatus.pending
        complexity := d.complexity.getD 5
        createdAt := now
        updatedAt := now
        metadata := d.metadata.getD [] }

/-- `validatePhaseData` of the source. -/
def validatePhaseData (d : PhaseInput) : Except String PhaseInput :=
  if d.phaseId = "" then
    Except.error "Invalid phaseId: must be a string"
  else if d.phaseName = "" then
    Except.error "Invalid phaseName: must be a string"
  else if d.description = "" then
    Except.error "Invalid description: must be a string"
  else
    Except.ok d

/-- `buildDependencyGraph` of the source: a `Map` from component id to its
dependency list, filled with `Map.set` in list order. -/
def buildDependencyGraph (components : List ComponentData) : List (String × List String) :=
  components.foldl (fun g c => alistUpsert g c.componentId c.dependencies) []

/-- Adjacency of a dependency graph: `graph.get(nodeId) || []`. -/
def depsOf (g : List (String × List String)) (n : String) : List String :=
  (alistLookup g n).getD []

/-- One step of the inner loop of the `dfs` of `calculateMaxDepth` (and of
its outer `Math.max` accumulation): thread the shared `visited`/`depths`
state and accumulate the running maximum, short-circuiting on fuel
exhaustion.  `recur` is the recursive `dfs` call. -/
def dfsStep
    (recur : List String → List (String × Nat) → String →
      Option (Nat × List String × List (String × Nat)))
    (acc : Option (Nat × List String × List (String × Nat))) (depId : String) :
    Option (Nat × List String × List (String × Nat)) :=
  match acc with
  | none => none
  | some (m, v, dp) =>
    match recur v dp depId with
    | none => none
    | some (d1, v1, dp1) => some (max m d1, v1, dp1)

/-- The `dfs` closure of `calculateMaxDepth`, with explicit fuel (the source
recurses on the call stack).  Returns the computed depth together with the
mutated `visited` set and `depths` memo table; `none` is fuel exhaustion,
proved unreachable for the fuel `calculateMaxDepth` passes.  Mirrors the
source exactly: memo check first, then the on-current-path check returning a
local contribution of 0, leaf nodes are memoised without being removed from
`visited`, inner nodes are removed after their children are explored. -/
def dfsGo (g : List (String × List String)) :
    Nat → List String → List (String × Nat) → String →
      Option (Nat × List String × List (String × Nat))
  | 0, _, _, _ => none
  | fuel + 1, visited, depths, nodeId =>
    match alistLookup depths nodeId with
    | some d => some (d, visited, depths)
    | none =>
      if nodeId ∈ visited then
        some (0, visited, depths)
      else
        let visited1 := nodeId :: visited
        let dependencies := depsOf g nodeId
        if dependencies.length = 0 then
          some (1, visited1, alistUpsert depths nodeId 1)
        else
          match dependencies.foldl (dfsStep (fun v dp d => dfsGo g fuel v dp d))
              (some (0, visited1, depths)) with
          | none => none
          | some (maxChildDepth, v2, dp2) =>
            some (1 + maxChildDepth, v2.erase nodeId,
              alistUpsert dp2 nodeId (1 + maxChildDepth))

/-- `calculateMaxDepth` of the source: run `dfs` from every key of the graph
(sharing `visited` and `depths` across the loop) and take the maximum, with
`Math.max(...dependencies.map(dfs))` folded left with base 0 (all depths are
nonnegative, so the base is absorbed).  The fuel `graph.length + 1` bounds
the recursion depth, which never exceeds the number of keys plus one. -/
def calculateMaxDepth (graph : List (String × List String)) : Option Nat :=
  match (graph.map Prod.fst).foldl
      (dfsStep (fun v dp d => dfsGo graph (graph.length + 1) v dp d))
      (some (0, [], [])) with
  | none => none
  | some (m, _, _) => some m

/-- The in-degree pass of `calculateBalanceScore`:
`inDegree.set(dep, (inDegree.get(dep) || 0) + 1)`. -/
def inDegreeIncr (l : List (String × Nat)) (k : String) : List (String × Nat) :=
  alistUpsert l k ((alistLookup l k).getD 0 + 1)

/-- `calculateBalanceScore` of the source.  The standard deviation uses
`Math.sqrt`, embedded as `Real.sqrt`; every other step is field arithmetic on
the in-degree multiset.  Note that the source divides by
`inDegrees.length` (the size of the in-degree map, which can exceed the
component count when dependency ids are dangling) and normalises by
`components.length - 1`. -/
noncomputable def calculateBalanceScore (components : List ComponentData)
    (graph : List (String × List String)) : ℝ :=
  if components.length ≤ 1 then 10
  else
    let inDeg0 : List (String × Nat) := components.map (fun c => (c.componentId, 0))
    let inDeg : List (String × Nat) :=
      graph.foldl (fun m e => e.2.foldl inDegreeIncr m) inDeg0
    let inDegrees : List Nat := inDeg.map Prod.snd
    let len : ℝ := inDegrees.length
    let mean : ℝ := (inDegrees.map (fun v => (v : ℝ))).sum / len
    let variance : ℝ := (inDegrees.map (fun v => ((v : ℝ) - mean) ^ 2)).sum / len
    let stdDev : ℝ := Real.sqrt variance
    let maxPossibleStdDev : ℝ := (components.length : ℝ) - 1
    let normalizedStdDev : ℝ := stdDev / maxPossibleStdDev
    let balanceScore : ℝ := 10 * (1 - normalizedStdDev)
    max 1 (min 10 balanceScore)

/-- `calculateMetrics` of the source (the private computation; the
`calculateMetrics` action wraps it with existence checks). -/
noncomputable def calculateMetricsFn (s : DecompositionState) (problemId : String) :
    DecompositionMetrics :=
  let components := (s.components.map Prod.snd).filter
    (fun c => c.parentProblemId = problemId)
  if components.length = 0 then
    { componentCount := 0
      averageComplexity := 0
      maxDepth := 0
      dependencyCount := 0
      balanceScore := 10 }
  else
    let componentCount := components.length
    let totalComplexity : ℚ := (components.map (fun c => c.complexity)).sum
    let averageComplexity : ℚ := totalComplexity / componentCount
    let dependencyGraph := buildDependencyGraph components
    let maxDepth := (calculateMaxDepth dependencyGraph).getD 0
    let dependencyCount := (components.map (fun c => c.dependencies.length)).sum
    let balanceScore := calculateBalanceScore components dependencyGraph
    { componentCount := componentCount
      averageComplexity := averageComplexity
      maxDepth := maxDepth
      dependencyCount := dependencyCount
      balanceScore := balanceScore }

/-- One step of the dependency loop of `checkCircular` in `linkComponents`:
propagate an error or an already-found `true`, otherwise recurse into the
next dependency with the shared `visited` set. -/
def ccStep
    (recur : List String → String → Except String (Bool × List String))
    (acc : Except String (Bool × List String)) (depId : String) :
    Except String (Bool × List String) :=
  match acc with
  | Except.error e => Except.error e
  | Except.ok (true, v) => Except.ok (true, v)
  | Except.ok (false, v) => recur v depId

/-- `checkCircular` of `linkComponents`, with explicit fuel.  The call
`checkCircular(currentId, targetId)` searches from `currentId` for `tgt`;
looking up the dependencies of an id with no component entry throws a
TypeError (dangling ids can be installed by `updateComponent`). -/
def checkCircularGo (comps : List (String × ComponentData)) :
    Nat → List String → String → String → Except String (Bool × List String)
  | 0, _, _, _ => Except.error "recursion limit exhausted"
  | fuel + 1, visited, currentId, tgt =>
    if currentId = tgt then Except.ok (true, visited)
    else if currentId ∈ visited then Except.ok (false, visited)
    else
      match alistLookup comps currentId with
      | none => Except.error "TypeError: cannot read dependencies of undefined"
      | some c =>
        c.dependencies.foldl (ccStep (fun v d => checkCircularGo comps fuel v d tgt))
          (Except.ok (false, currentId :: visited))

/-- `findIndex` on the phase history combined with the indexed access the
`completePhase` case performs: the first phase with the given id, together
with its index. -/
def findPhaseIdx : List DecompositionPhase → String → Option (Nat × DecompositionPhase)
  | [], _ => none
  | ph :: rest, phaseId =>
    if ph.phaseId = phaseId then some (0, ph)
    else (findPhaseIdx rest phaseId).map (fun p => (p.1 + 1, p.2))

/-- Success payloads of the dispatcher's envelope, one constructor per JSON
shape returned by the source's cases. -/
inductive Payload where
  | problemRes (message : String) (problem : ProblemData)
  | componentRes (message : String) (component : ComponentData)
  | phaseRes (message : String) (phase : DecompositionPhase)
  | metricsRes (metrics : DecompositionMetrics)
  | decompositionRes (problem : ProblemData) (components : List ComponentData)
      (metrics : DecompositionMetrics)
  | componentDetailsRes (component : ComponentData)
      (dependencies : List (Option ComponentData)) (dependents : List ComponentData)
  | problemDetailsRes (problem : ProblemData)
  | phaseHistoryRes (phases : List DecompositionPhase) (currentPhaseIndex : Int)

/-- The body of `processRequest` before its `catch`: each action case with its
checks in source order, every `throw` preceding the first store write of the
case (as in the source), and the mutated state returned alongside the success
payload. -/
noncomputable def processRequestE (s : DecompositionState) (req : Request) (now : Nat) :
    Except String (Payload × DecompositionState) :=
  match req with
  | Request.createProblem input =>
    match validateProblemData now input with
    | Except.error e => Except.error e
    | Except.ok problemData =>
      let pid := problemData.problemId
      if (alistLookup s.problems pid).isSome then
        Except.error ("Problem with ID " ++ pid ++ " already exists")
      else
        let s' := { s with problems := alistUpsert s.problems pid problemData }
        Except.ok
          (Payload.problemRes ("Problem " ++ pid ++ " created successfully") problemData, s')
  | Request.updateProblem input =>
    match validateProblemData now input with
    | Except.error e => Except.error e
    | Except.ok problemData =>
      let pid := problemData.problemId
      match alistLookup s.problems pid with
      | none => Except.error ("Problem with ID " ++ pid ++ " does not exist")
      | some old =>
        let stored := { problemData with createdAt := old.createdAt }
        let s' := { s with problems := alistUpsert s.problems pid stored }
        Except.ok
          (Payload.problemRes ("Problem " ++ pid ++ " updated successfully") stored, s')
  | Request.createComponent input =>
    match validateComponentData now input with
    | Except.error e => Except.error e
    | Except.ok componentData =>
      let cid := componentData.componentId
      if (alistLookup s.components cid).isSome then
        Except.error ("Component with ID " ++ cid ++ " already exists")
      else if (alistLookup s.problems componentData.parentProblemId).isNone then
        Except.error
          ("Parent problem with ID " ++ componentData.parentProblemId ++ " does not exist")
      else
        match componentData.dependencies.find?
            (fun depId => (alistLookup s.components depId).isNone) with
        | some depId =>
          Except.error ("Dependency component with ID " ++ depId ++ " does not exist")
        | none =>
          let s' := { s with components := alistUpsert s.components cid componentData }
          Except.ok (Payload.componentRes ("Component " ++ cid ++ " created successfully")
            componentData, s')
  | Request.updateComponent input =>
    match validateComponentData now input with
    | Except.error e => Except.error e
    | Except.ok componentData =>
      let cid := componentData.componentId
      match alistLookup s.components cid with
      | none => Except.error ("Component with ID " ++ cid ++ " does not exist")
      | some old =>
        let stored := { componentData with createdAt := old.createdAt, updatedAt := now }
        let s' := { s with components := alistUpsert s.components cid stored }
        Except.ok
          (Payload.componentRes ("Component " ++ cid ++ " updated successfully") stored, s')
  | Request.linkComponents sourceId targetId =>
    if sourceId = "" then
      Except.error "Invalid sourceId: must be a string"
    else if targetId = "" then
      Except.error "Invalid targetId: must be a string"
    else
      match alistLookup s.components sourceId with
      | none => Except.error ("Source component with ID " ++ sourceId ++ " does not exist")
      | some sourceComp =>
        if (alistLookup s.components targetId).isNone then
          Except.error ("Target component with ID " ++ targetId ++ " does not exist")
        else
          match checkCircularGo s.components (s.components.length + 1) [] targetId sourceId with
          | Except.error e => Except.error e
          | Except.ok (true, _) => Except.error "Cannot create circular dependency"
          | Except.ok (false, _) =>
            if targetId ∈ sourceComp.dependencies then
              Except.ok (Payload.componentRes
                ("Component " ++ sourceId ++ " now depends on " ++ targetId) sourceComp, s)
            else
              let newComp := { sourceComp with
                dependencies := sourceComp.dependencies ++ [targetId]
                updatedAt := now }
              let s' := { s with components := alistUpsert s.components sourceId newComp }
              Except.ok (Payload.componentRes
                ("Component " ++ sourceId ++ " now depends on " ++ targetId) newComp, s')
  | Request.startPhase input =>
    match validatePhaseData input with
    | Except.error e => Except.error e
    | Except.ok phaseData =>
      let newPhase : DecompositionPhase :=
        { phaseId := phaseData.phaseId
          phaseName := phaseData.phaseName
          description := phaseData.description
          startedAt := now
          completedAt := none
          metrics :=
            { componentCount := 0
              averageComplexity := 0
              maxDepth := 0
              dependencyCount := 0
              balanceScore := 10 } }
      let s' := { s with
        decompositionPhases := s.decompositionPhases ++ [newPhase]
        currentPhaseIndex := (s.decompositionPhases.length : Int) }
      Except.ok (Payload.phaseRes ("Phase " ++ newPhase.phaseName ++ " started successfully")
        newPhase, s')
  | Request.completePhase phaseId problemId =>
    if phaseId = "" then
      Except.error "Invalid phaseId: must be a string"
    else if problemId = "" then
      Except.error "Invalid problemId: must be a string"
    else
      match findPhaseIdx s.decompositionPhases phaseId with
      | none => Except.error ("Phase with ID " ++ phaseId ++ " does not exist")
      | some (i, ph) =>
        if (alistLookup s.problems problemId).isNone then
          Except.error ("Problem with ID " ++ problemId ++ " does not exist")
        else
          let metrics := calculateMetricsFn s problemId
          let ph' := { ph with completedAt := some now, metrics := metrics }
          let s' := { s with decompositionPhases := s.decompositionPhases.set i ph' }
          Except.ok
            (Payload.phaseRes ("Phase " ++ ph.phaseName ++ " completed successfully") ph', s')
  | Request.calculateMetricsAction problemId =>
    if problemId = "" then
      Except.error "Invalid problemId: must be a string"
    else if (alistLookup s.problems problemId).isNone then
      Except.error ("Problem with ID " ++ problemId ++ " does not exist")
    else
      Except.ok (Payload.metricsRes (calculateMetricsFn s problemId), s)
  | Request.getDecomposition problemId =>
    if problemId = "" then
      Except.error "Invalid problemId: must be a string"
    else
      match alistLookup s.problems problemId with
      | none => Except.error ("Problem with ID " ++ problemId ++ " does not exist")
      | some problem =>
        let components := (s.components.map Prod.snd).filter
          (fun c => c.parentProblemId = problemId)
        Except.ok
          (Payload.decompositionRes problem components (calculateMetricsFn s problemId), s)
  | Request.getComponentDetails componentId =>
    if componentId = "" then
      Except.error "Invalid componentId: must be a string"
    else
      match alistLookup s.components componentId with
      | none => Except.error ("Component with ID " ++ componentId ++ " does not exist")
      | some component =>
        let dependencies := component.dependencies.map (alistLookup s.components)
        let dependents := (s.components.map Prod.snd).filter
          (fun c => componentId ∈ c.dependencies)
        Except.ok (Payload.componentDetailsRes component dependencies dependents, s)
  | Request.getProblemDetails problemId =>
    if problemId = "" then
      Except.error "Invalid problemId: must be a string"
    else
      match alistLookup s.problems problemId with
      | none => Except.error ("Problem with ID " ++ problemId ++ " does not exist")
      | some problem => Except.ok (Payload.problemDetailsRes problem, s)
  | Request.getPhaseHistory =>
    Except.ok (Payload.phaseHistoryRes s.decompositionPhases s.currentPhaseIndex, s)
  | Request.unknownAction action =>
    Except.error ("Unknown action: " ++ action)

/-- `processRequest` of the source: the dispatch above wrapped in the
`try/catch` that converts a thrown error into the failure envelope.  A thrown
error leaves the state as it was, which is faithful because every case of the
source throws only before its first store write. -/
noncomputable def processRequest (s : DecompositionState) (req : Request) (now : Nat) :
    Except String Payload × DecompositionState :=
  match processRequestE s req now with
  | Except.ok (p, s') => (Except.ok p, s')
  | Except.error e => (Except.error e, s)

/-- Directed dependency edge over the component store: `x` depends on `y`. -/
def EdgeC (comps : List (String × ComponentData)) (x y : String) : Prop :=
  ∃ c, alistLookup comps x = some c ∧ y ∈ c.dependencies

/-- Reachability (zero or more dependency edges) over the component store. -/
def ReachC (comps : List (String × ComponentData)) : String → String → Prop :=
  Relation.ReflTransGen (EdgeC comps)

/-- Acyclicity of the component store's dependency relation: no component is
reachable from itself through one or more dependency edges. -/
def AcyclicC (comps : List (String × ComponentData)) : Prop :=
  ∀ x, ¬ Relation.TransGen (EdgeC comps) x x

/-- Every dependency id stored in a component resolves to a component.  This
holds in every state reachable without `updateComponent`, which installs
dependency lists unvalidated. -/
def WellFormedC (comps : List (String × ComponentData)) : Prop :=
  ∀ k c, alistLookup comps k = some c →
    ∀ d ∈ c.dependencies, (alistLookup comps d).isSome

/-- Directed edge of an adjacency-list graph (ids absent from the graph have
no outgoing edges, matching `graph.get(nodeId) || []`). -/
def EdgeG (g : List (String × List String)) (x y : String) : Prop :=
  y ∈ depsOf g x

/-- Acyclicity of an adjacency-list graph. -/
def AcyclicG (g : List (String × List String)) : Prop :=
  ∀ x, ¬ Relation.TransGen (EdgeG g) x x

/-- Maximum of a list of naturals with base 0 (`Math.max` folded left; all
depths are nonnegative, so the base is absorbed on nonempty lists). -/
def maxList (l : List Nat) : Nat := l.foldl max 0

/-- The recursive reference definition of dependency depth from the
specification: a node with no dependencies has depth 1, any other node has
depth 1 plus the maximum depth of its dependencies. -/
inductive DepthR (g : List (String × List String)) : String → Nat → Prop where
  | leaf (n : String) : depsOf g n = [] → DepthR g n 1
  | node (n : String) (f : String → Nat) : depsOf g n ≠ [] →
      (∀ d ∈ depsOf g n, DepthR g d (f d)) →
      DepthR g n (1 + maxList ((depsOf g n).map f))

/-- Problem input of the specification's scenario. -/
def pIn1 : ProblemInput :=
  { problemId := "p1"
    problemStatement := "ship the feature"
    complexity := none
    domain := none
    constraints := none }

/-- Component input `c1` (no dependencies) of the scenario. -/
def cIn1 : ComponentInput :=
  { componentId := "c1"
    parentProblemId := "p1"
    name := "core"
    description := "core part"
    dependencies := none
    status := none
    complexity := none
    metadata := none }

/-- Component input `c2` (depends on `c1`) of the scenario. -/
def cIn2 : ComponentInput :=
  { componentId := "c2"
    parentProblemId := "p1"
    name := "ui"
    description := "ui part"
    dependencies := some ["c1"]
    status := none
    complexity := none
    metadata := none }

/-- `updateComponent` input that rewrites `c2`'s dependencies to a dangling
id. -/
def ghostIn : ComponentInput :=
  { componentId := "c2"
    parentProblemId := "p1"
    name := "ui"
    description := "ui part"
    dependencies := some ["ghost"]
    status := none
    complexity := none
    metadata := none }

/-- `updateComponent` input that rewrites `c1`'s dependencies to `c2`,
closing the cycle `c1 → c2 → c1`. -/
def cycIn : ComponentInput :=
  { componentId := "c1"
    parentProblemId := "p1"
    name := "core"
    description := "core part"
    dependencies := some ["c2"]
    status := none
    complexity := none
    metadata := none }

/-- Phase input of the lifecycle scenario. -/
def phIn1 : PhaseInput :=
  { phaseId := "ph1"
    phaseName := "Phase One"
    description := "initial decomposition" }

/-- State after `createProblem(p1)` at time 0. -/
noncomputable def st1 : DecompositionState :=
  (processRequest initialState (Request.createProblem pIn1) 0).2

/-- State after also `createComponent(c1)` at time 1. -/
noncomputable def st2 : DecompositionState :=
  (processRequest st1 (Request.createComponent cIn1) 1).2

/-- State of the specification's metric scenario: problem `p1`, component
`c1` with no dependencies, component `c2` depending on `c1`. -/
noncomputable def st3 : DecompositionState :=
  (processRequest st2 (Request.createComponent cIn2) 2).2

/-- Reachable state in which `c2`'s dependencies contain the dangling id
`"ghost"` (installed by `updateComponent`, which does not validate them). -/
noncomputable def stGhost : DecompositionState :=
  (processRequest st3 (Request.updateComponent ghostIn) 3).2

/-- Reachable state in which the dependency relation has the cycle
`c1 → c2 → c1` (closed by `updateComponent`). -/
noncomputable def stCycle : DecompositionState :=
  (processRequest st3 (Request.updateComponent cycIn) 3).2

/-- Scenario state with an open phase `ph1` on top of `st3`. -/
noncomputable def stPhase : DecompositionState :=
  (processRequest st3 (Request.startPhase phIn1) 3).2

/-- `createComponent` input with a fresh id and a dangling dependency, for
contrast with `updateComponent`. -/
def ghostCreateIn : ComponentInput :=
  { componentId := "c3"
    parentProblemId := "p1"
    name := "extra"
    description := "extra part"
    dependencies := some ["ghost"]
    status := none
    complexity := none
    metadata := none }

/-- The dependency graph the scenario state `st3` induces:
`buildDependencyGraph` of its components. -/
def gr3 : List (String × List String) := [("c1", []), ("c2", ["c1"])]

/-- Concrete leaf component for the balance-score scenario. -/
def cw1 : ComponentData :=
  { componentId := "c1"
    parentProblemId := "p1"
    name := "core"
    description := "core part"
    dependencies := []
    status := CStatus.pending
    complexity := 5
    createdAt := 1
    updatedAt := 1
    metadata := [] }

/-- Concrete component depending on `cw1` for the balance-score scenario. -/
def cw2 : ComponentData :=
  { componentId := "c2"
    parentProblemId := "p1"
    name := "ui"
    description := "ui part"
    dependencies := ["c1"]
    status := CStatus.pending
    complexity := 5
    createdAt := 2
    updatedAt := 2
    metadata := [] }

/-- The stated behaviour of the `completePhase` action on well-formed ids:
the not-found failures (with `findPhaseIdx` finding nothing exactly when no
phase in the history carries the id), and the success case setting the
completion timestamp and overwriting the metrics snapshot at the found
index while leaving every other phase unchanged. -/
def completePhaseSpec (s : DecompositionState) (phaseId problemId : String)
    (t : Nat) : Prop :=
  (findPhaseIdx s.decompositionPhases phaseId = none ↔
    ∀ ph ∈ s.decompositionPhases, ph.phaseId ≠ phaseId) ∧
  (findPhaseIdx s.decompositionPhases phaseId = none →
    processRequest s (Request.completePhase phaseId problemId) t =
      (Except.error ("Phase with ID " ++ phaseId ++ " does not exist"), s)) ∧
  (∀ i ph, findPhaseIdx s.decompositionPhases phaseId = some (i, ph) →
    (alistLookup s.problems problemId).isNone = true →
    processRequest s (Request.completePhase phaseId problemId) t =
      (Except.error ("Problem with ID " ++ problemId ++ " does not exist"), s)) ∧
  (∀ i ph, findPhaseIdx s.decompositionPhases phaseId = some (i, ph) →
    (alistLookup s.problems problemId).isNone = false →
    s.decompositionPhases[i]? = some ph ∧
    ph.phaseId = phaseId ∧
    processRequest s (Request.completePhase phaseId problemId) t =
      (Except.ok
        (Payload.phaseRes ("Phase " ++ ph.phaseName ++ " completed successfully")
          { ph with completedAt := some t, metrics := calculateMetricsFn s problemId }),
       { s with decompositionPhases := s.decompositionPhases.set i { ph with completedAt := some t, metrics := calculateMetricsFn s problemId } }) ∧
    (∀ j, j ≠ i →
      (processRequest s (Request.completePhase phaseId problemId) t).2.decompositionPhases[j]? =
        s.decompositionPhases[j]?) ∧
    (processRequest s (Request.completePhase phaseId problemId) t).2.decompositionPhases[i]? =
      some { ph with completedAt := some t, metrics := calculateMetricsFn s problemId })


/-- Number of record keys not yet visited: the measure that bounds the
recursion depth of `checkCircularGo` and of the `dfs` of
`calculateMaxDepth`. -/
def remKeys {α : Type} (l : List (String × α)) (v : List String) : Nat :=
  ((l.map Prod.fst).toFinset \ v.toFinset).card

/-! ## Theorems -/

theorem alistLookup_upsert {α : Type} (l : List (String × α)) (k k' : String) (v : α) :
    alistLookup (alistUpsert l k v) k' = if k = k' then some v else alistLookup l k' := by
  induction l with
  | nil => simp [alistLookup, alistUpsert]
  | cons hd rest ih =>
    obtain ⟨a, b⟩ := hd
    by_cases hak : a = k
    · subst hak
      by_cases hk' : a = k' <;> simp [alistLookup, alistUpsert, hk']
    · by_cases hk' : a = k'
      · subst hk'
        have : ¬ k = a := fun h => hak h.symm
        simp [alistLookup, alistUpsert, hak, this]
      · simp [alistLookup, alistUpsert, hak, hk', ih]

theorem alistLookup_isSome_upsert {α : Type} (l : List (String × α)) (k k' : String) (v : α) :
    (alistLookup (alistUpsert l k v) k').isSome ↔ k = k' ∨ (alistLookup l k').isSome := by
  rw [alistLookup_upsert]
  by_cases h : k = k' <;> simp [h]

theorem alistUpsert_length_of_isSome {α : Type} (l : List (String × α)) (k : String) (v : α)
    (h : (alistLookup l k).isSome) : (alistUpsert l k v).length = l.length := by
  induction l with
  | nil => simp [alistLookup] at h
  | cons hd rest ih =>
    obtain ⟨a, b⟩ := hd
    by_cases hak : a = k
    · simp [alistUpsert, hak]
    · simp [alistLookup, hak] at h
      simp [alistUpsert, hak, ih h]

theorem alistLookup_isSome_iff_mem_keys {α : Type} (l : List (String × α)) (k : String) :
    (alistLookup l k).isSome ↔ k ∈ l.map Prod.fst := by
  induction l with
  | nil => simp [alistLookup]
  | cons hd rest ih =>
    obtain ⟨a, b⟩ := hd
    by_cases hak : a = k
    · simp [alistLookup, hak]
    · simp [alistLookup, hak, ih, Ne.symm hak]

theorem remKeys_le_of_subset {α : Type} (comps : List (String × α)) (v w : List String)
    (h : ∀ x ∈ v, x ∈ w) : remKeys comps w ≤ remKeys comps v := by
  apply Finset.card_le_card
  intro x hx
  simp only [Finset.mem_sdiff, List.mem_toFinset] at hx ⊢
  exact ⟨hx.1, fun hv => hx.2 (h x hv)⟩

theorem remKeys_cons_lt {α : Type} (comps : List (String × α)) (v : List String)
    (c : String) (hc : c ∈ comps.map Prod.fst) (hcv : ¬ c ∈ v) :
    remKeys comps (c :: v) < remKeys comps v := by
  apply Finset.card_lt_card
  rw [Finset.ssubset_def]
  constructor
  · intro x hx
    simp only [Finset.mem_sdiff, List.mem_toFinset, List.mem_cons] at hx ⊢
    exact ⟨hx.1, fun hv => hx.2 (Or.inr hv)⟩
  · intro hsub
    have hcmem : c ∈ (comps.map Prod.fst).toFinset \ v.toFinset := by
      simp only [Finset.mem_sdiff, List.mem_toFinset]
      exact ⟨hc, hcv⟩
    have := hsub hcmem
    simp only [Finset.mem_sdiff, List.mem_toFinset, List.mem_cons] at this
    exact this.2 (by simp)


theorem remKeys_nil_le {α : Type} (comps : List (String × α)) :
    remKeys comps [] ≤ comps.length := by
  unfold remKeys
  calc ((comps.map Prod.fst).toFinset \ ([] : List String).toFinset).card
      ≤ (comps.map Prod.fst).toFinset.card := by
        apply Finset.card_le_card
        exact Finset.sdiff_subset
    _ ≤ (comps.map Prod.fst).length := List.toFinset_card_le _
    _ = comps.length := List.length_map _ _

theorem ccFold_error (r : List String → String → Except String (Bool × List String))
    (deps : List String) (e : String) :
    deps.foldl (ccStep r) (Except.error e) = Except.error e := by
  induction deps with
  | nil => rfl
  | cons d rest ih => simpa [ccStep] using ih

theorem ccFold_true (r : List String → String → Except String (Bool × List String))
    (deps : List String) (v : List String) :
    deps.foldl (ccStep r) (Except.ok (true, v)) = Except.ok (true, v) := by
  induction deps with
  | nil => rfl
  | cons d rest ih => simpa [ccStep] using ih

theorem checkCircularGo_mono (comps : List (String × ComponentData)) (tgt : String) :
    ∀ fuel v cur b v', checkCircularGo comps fuel v cur tgt = Except.ok (b, v') →
      ∀ x ∈ v, x ∈ v' := by
  intro fuel
  induction fuel with
  | zero => intro v cur b v' h; simp [checkCircularGo] at h
  | succ fuel ih =>
    have hfold : ∀ (deps : List String) (acc : Except String (Bool × List String)) b v',
        List.foldl (ccStep (fun v d => checkCircularGo comps fuel v d tgt)) acc deps =
          Except.ok (b, v') →
        ∀ b0 v0, acc = Except.ok (b0, v0) → ∀ x ∈ v0, x ∈ v' := by
      intro deps
      induction deps with
      | nil =>
        intro acc b v' h b0 v0 hacc x hx
        rw [hacc] at h
        simp only [List.foldl_nil] at h
        cases h
        exact hx
      | cons d rest ihd =>
        intro acc b v' h b0 v0 hacc x hx
        rw [hacc] at h
        simp only [List.foldl_cons] at h
        cases b0 with
        | true =>
          rw [show ccStep (fun v d => checkCircularGo comps fuel v d tgt)
              (Except.ok (true, v0)) d = Except.ok (true, v0) from rfl,
            ccFold_true] at h
          cases h
          exact hx
        | false =>
          rw [show ccStep (fun v d => checkCircularGo comps fuel v d tgt)
              (Except.ok (false, v0)) d = checkCircularGo comps fuel v0 d tgt from rfl] at h
          cases hc : checkCircularGo comps fuel v0 d tgt with
          | error e => rw [hc, ccFold_error] at h; cases h
          | ok bv =>
            obtain ⟨b1, v1⟩ := bv
            rw [hc] at h
            exact ihd _ _ _ h b1 v1 rfl x (ih v0 d b1 v1 hc x hx)
    intro v cur b v' h
    simp only [checkCircularGo] at h
    by_cases hct : cur = tgt
    · rw [if_pos hct] at h
      cases h
      exact fun x hx => hx
    · rw [if_neg hct] at h
      by_cases hcv : cur ∈ v
      · rw [if_pos hcv] at h
        cases h
        exact fun x hx => hx
      · rw [if_neg hcv] at h
        cases hl : alistLookup comps cur with
        | none => rw [hl] at h; cases h
        | some c =>
          rw [hl] at h
          intro x hx
          exact hfold c.dependencies _ b v' h false (cur :: v) rfl x
            (List.mem_cons_of_mem cur hx)

theorem checkCircularGo_no_fuel_error (comps : List (String × ComponentData)) (tgt : String) :
    ∀ fuel v cur, remKeys comps v < fuel →
      checkCircularGo comps fuel v cur tgt ≠ Except.error "recursion limit exhausted" := by
  intro fuel
  induction fuel with
  | zero => intro v cur h; omega
  | succ fuel ih =>
    have hfold : ∀ (deps : List String) (v0 : List String), remKeys comps v0 < fuel →
        List.foldl (ccStep (fun v d => checkCircularGo comps fuel v d tgt))
          (Except.ok (false, v0)) deps ≠ Except.error "recursion limit exhausted" := by
      intro deps
      induction deps with
      | nil => intro v0 hb h; cases h
      | cons d rest ihd =>
        intro v0 hb
        simp only [List.foldl_cons]
        rw [show ccStep (fun v d => checkCircularGo comps fuel v d tgt)
            (Except.ok (false, v0)) d = checkCircularGo comps fuel v0 d tgt from rfl]
        cases hc : checkCircularGo comps fuel v0 d tgt with
        | error e =>
          rw [ccFold_error]
          intro h
          injection h with he
          exact ih v0 d hb (he ▸ hc)
        | ok bv =>
          obtain ⟨b1, v1⟩ := bv
          cases b1 with
          | true => rw [ccFold_true]; intro h; cases h
          | false =>
            have hsub := checkCircularGo_mono comps tgt fuel v0 d false v1 hc
            have : remKeys comps v1 ≤ remKeys comps v0 :=
              remKeys_le_of_subset comps v0 v1 hsub
            exact ihd v1 (by omega)
    intro v cur hb
    simp only [checkCircularGo]
    by_cases hct : cur = tgt
    · rw [if_pos hct]; intro h; cases h
    · rw [if_neg hct]
      by_cases hcv : cur ∈ v
      · rw [if_pos hcv]; intro h; cases h
      · rw [if_neg hcv]
        cases hl : alistLookup comps cur with
        | none =>
          intro h
          injection h with he
          exact absurd he (by decide)
        | some c =>
          have hkey : cur ∈ comps.map Prod.fst :=
            (alistLookup_isSome_iff_mem_keys comps cur).mp (by simp [hl])
          have hlt : remKeys comps (cur :: v) < remKeys comps v :=
            remKeys_cons_lt comps v cur hkey hcv
          exact hfold c.dependencies (cur :: v) (by omega)

theorem checkCircularGo_true_reach (comps : List (String × ComponentData)) (tgt : String) :
    ∀ fuel v cur v', checkCircularGo comps fuel v cur tgt = Except.ok (true, v') →
      ReachC comps cur tgt := by
  intro fuel
  induction fuel with
  | zero => intro v cur v' h; simp [checkCircularGo] at h
  | succ fuel ih =>
    have hfold : ∀ (deps : List String) (acc : Except String (Bool × List String)) v',
        List.foldl (ccStep (fun v d => checkCircularGo comps fuel v d tgt)) acc deps =
          Except.ok (true, v') →
        (∃ w, acc = Except.ok (true, w)) ∨
          ∃ d ∈ deps, ∃ v0 v1, checkCircularGo comps fuel v0 d tgt = Except.ok (true, v1) := by
      intro deps
      induction deps with
      | nil =>
        intro acc v' h
        simp only [List.foldl_nil] at h
        exact Or.inl ⟨v', h⟩
      | cons d rest ihd =>
        intro acc v' h
        simp only [List.foldl_cons] at h
        rcases ihd _ _ h with ⟨w, hw⟩ | ⟨d', hd', hex⟩
        · cases acc with
          | error e =>
            rw [show ccStep (fun v d => checkCircularGo comps fuel v d tgt)
              (Except.error e) d = Except.error e from rfl] at hw
            cases hw
          | ok bv =>
            obtain ⟨b0, v0⟩ := bv
            cases b0 with
            | true => exact Or.inl ⟨v0, rfl⟩
            | false =>
              refine Or.inr ⟨d, List.mem_cons_self d rest, v0, w, ?_⟩
              simpa [ccStep] using hw
        · exact Or.inr ⟨d', List.mem_cons_of_mem d hd', hex⟩
    intro v cur v' h
    simp only [checkCircularGo] at h
    by_cases hct : cur = tgt
    · subst hct
      exact Relation.ReflTransGen.refl
    · rw [if_neg hct] at h
      by_cases hcv : cur ∈ v
      · rw [if_pos hcv] at h
        simp at h
      · rw [if_neg hcv] at h
        cases hl : alistLookup comps cur with
        | none => rw [hl] at h; cases h
        | some c =>
          rw [hl] at h
          rcases hfold c.dependencies _ v' h with ⟨w, hw⟩ | ⟨d, hd, v0, v1, hx⟩
          · simp at hw
          · exact Relation.ReflTransGen.head ⟨c, hl, hd⟩ (ih v0 d v1 hx)

theorem checkCircularGo_false_closed (comps : List (String × ComponentData)) (tgt : String) :
    ∀ fuel v cur v', checkCircularGo comps fuel v cur tgt = Except.ok (false, v') →
      (∀ x ∈ v, x ∈ v') ∧ cur ∈ v' ∧
      (∀ x ∈ v', x ∈ v ∨ (x ≠ tgt ∧ ∃ c, alistLookup comps x = some c ∧
        ∀ d ∈ c.dependencies, d ∈ v')) := by
  intro fuel
  induction fuel with
  | zero => intro v cur v' h; simp [checkCircularGo] at h
  | succ fuel ih =>
    have hfold : ∀ (deps : List String) (v0 : List String) v',
        List.foldl (ccStep (fun v d => checkCircularGo comps fuel v d tgt))
          (Except.ok (false, v0)) deps = Except.ok (false, v') →
        (∀ x ∈ v0, x ∈ v') ∧ (∀ d ∈ deps, d ∈ v') ∧
        (∀ x ∈ v', x ∈ v0 ∨ (x ≠ tgt ∧ ∃ c, alistLookup comps x = some c ∧
          ∀ d ∈ c.dependencies, d ∈ v')) := by
      intro deps
      induction deps with
      | nil =>
        intro v0 v' h
        simp only [List.foldl_nil] at h
        cases h
        exact ⟨fun x hx => hx, fun d hd => absurd hd (List.not_mem_nil d),
          fun x hx => Or.inl hx⟩
      | cons d rest ihd =>
        intro v0 v' h
        simp only [List.foldl_cons] at h
        rw [show ccStep (fun v d => checkCircularGo comps fuel v d tgt)
            (Except.ok (false, v0)) d = checkCircularGo comps fuel v0 d tgt from rfl] at h
        cases hc : checkCircularGo comps fuel v0 d tgt with
        | error e => rw [hc, ccFold_error] at h; cases h
        | ok bv =>
          obtain ⟨b1, v1⟩ := bv
          cases b1 with
          | true => rw [hc, ccFold_true] at h; simp at h
          | false =>
            rw [hc] at h
            obtain ⟨h01, hrest, hclosed⟩ := ihd v1 v' h
            obtain ⟨hsub01, hdmem, hcl1⟩ := ih v0 d v1 hc
            refine ⟨fun x hx => h01 x (hsub01 x hx), ?_, ?_⟩
            · intro d' hd'
              rcases List.mem_cons.mp hd' with rfl | hd'
              · exact h01 d' hdmem
              · exact hrest d' hd'
            · intro x hx
              rcases hclosed x hx with hx1 | hcl
              · rcases hcl1 x hx1 with hx0 | ⟨hne, c, hcx, hdeps⟩
                · exact Or.inl hx0
                · exact Or.inr ⟨hne, c, hcx, fun dd hdd => h01 dd (hdeps dd hdd)⟩
              · exact Or.inr hcl
    intro v cur v' h
    simp only [checkCircularGo] at h
    by_cases hct : cur = tgt
    · rw [if_pos hct] at h
      simp at h
    · rw [if_neg hct] at h
      by_cases hcv : cur ∈ v
      · rw [if_pos hcv] at h
        cases h
        exact ⟨fun x hx => hx, hcv, fun x hx => Or.inl hx⟩
      · rw [if_neg hcv] at h
        cases hl : alistLookup comps cur with
        | none => rw [hl] at h; cases h
        | some c =>
          rw [hl] at h
          obtain ⟨h0, hdeps, hclosed⟩ := hfold c.dependencies (cur :: v) v' h
          refine ⟨fun x hx => h0 x (List.mem_cons_of_mem cur hx),
            h0 cur (List.mem_cons_self cur v), ?_⟩
          intro x hx
          rcases hclosed x hx with hx0 | hcl
          · rcases List.mem_cons.mp hx0 with rfl | hxv
            · exact Or.inr ⟨hct, c, hl, hdeps⟩
            · exact Or.inl hxv
          · exact Or.inr hcl

theorem checkCircularGo_false_not_reach (comps : List (String × ComponentData))
    (tgt : String) (fuel : Nat) (cur : String) (v' : List String)
    (h : checkCircularGo comps fuel [] cur tgt = Except.ok (false, v')) :
    ¬ ReachC comps cur tgt := by
  obtain ⟨hsub, hcur, hclosed⟩ := checkCircularGo_false_closed comps tgt fuel [] cur v' h
  intro hreach
  have hnone : ∀ x, ReachC comps x tgt → ¬ x ∈ v' := by
    intro x hx
    induction hx using Relation.ReflTransGen.head_induction_on with
    | refl =>
      intro htgt
      rcases hclosed tgt htgt with h1 | ⟨hne, _⟩
      · exact absurd h1 (List.not_mem_nil tgt)
      · exact hne rfl
    | head hedge hre ih =>
      intro hx
      rcases hclosed _ hx with h1 | ⟨_, c, hc, hdeps⟩
      · exact absurd h1 (List.not_mem_nil _)
      · obtain ⟨c', hc', hyc⟩ := hedge
        rw [hc] at hc'
        injection hc' with hcc
        exact ih (hdeps _ (hcc ▸ hyc))
  exact hnone cur hreach hcur

theorem checkCircularGo_wf_ok (comps : List (String × ComponentData)) (tgt : String)
    (hwf : WellFormedC comps) :
    ∀ fuel v cur, remKeys comps v < fuel →
      (cur = tgt ∨ (alistLookup comps cur).isSome) →
      ∃ b v', checkCircularGo comps fuel v cur tgt = Except.ok (b, v') := by
  intro fuel
  induction fuel with
  | zero => intro v cur hb hcur; omega
  | succ fuel ih =>
    have hfold : ∀ (deps : List String) (v0 : List String),
        remKeys comps v0 < fuel →
        (∀ d ∈ deps, (alistLookup comps d).isSome) →
        ∃ b v', List.foldl (ccStep (fun v d => checkCircularGo comps fuel v d tgt))
          (Except.ok (false, v0)) deps = Except.ok (b, v') := by
      intro deps
      induction deps with
      | nil => intro v0 hb hd; exact ⟨false, v0, rfl⟩
      | cons d rest ihd =>
        intro v0 hb hd
        simp only [List.foldl_cons]
        rw [show ccStep (fun v d => checkCircularGo comps fuel v d tgt)
            (Except.ok (false, v0)) d = checkCircularGo comps fuel v0 d tgt from rfl]
        obtain ⟨b1, v1, hc⟩ := ih v0 d hb (Or.inr (hd d (List.mem_cons_self d rest)))
        rw [hc]
        cases b1 with
        | true => rw [ccFold_true]; exact ⟨true, v1, rfl⟩
        | false =>
          have hsub := checkCircularGo_mono comps tgt fuel v0 d false v1 hc
          exact ihd v1
            (Nat.lt_of_le_of_lt (remKeys_le_of_subset comps v0 v1 hsub) hb)
            (fun d' hd' => hd d' (List.mem_cons_of_mem d hd'))
    intro v cur hb hcur
    simp only [checkCircularGo]
    by_cases hct : cur = tgt
    · rw [if_pos hct]; exact ⟨true, v, rfl⟩
    · rw [if_neg hct]
      by_cases hcv : cur ∈ v
      · rw [if_pos hcv]; exact ⟨false, v, rfl⟩
      · rw [if_neg hcv]
        rcases hcur with rfl | hs
        · exact absurd rfl hct
        · obtain ⟨c, hl⟩ := Option.isSome_iff_exists.mp hs
          rw [hl]
          have hkey : cur ∈ comps.map Prod.fst :=
            (alistLookup_isSome_iff_mem_keys comps cur).mp hs
          have hlt := remKeys_cons_lt comps v cur hkey hcv
          exact hfold c.dependencies (cur :: v) (by omega)
            (fun d hd => hwf cur c hl d hd)

/-- C4: every request that returns the failure envelope leaves the entity
state (problems, components, phase history, current phase index) exactly as
it was before the call: validation is strictly pre-mutation, so a failed call
is a true no-op on state. -/
theorem failed_request_state_unchanged (s : DecompositionState) (req : Request) (t : Nat)
    (e : String) (h : (processRequest s req t).1 = Except.error e) :
    (processRequest s req t).2 = s := by
  unfold processRequest at h ⊢
  cases hE : processRequestE s req t with
  | ok ps =>
    obtain ⟨p, s'⟩ := ps
    rw [hE] at h
    simp at h
  | error e' => rfl

/-- Witness for C4 at a concrete failing request. -/
theorem failed_request_state_unchanged_witness :
    (processRequest initialState (Request.getProblemDetails "p1") 0).1 =
      Except.error "Problem with ID p1 does not exist" ∧
    (processRequest initialState (Request.getProblemDetails "p1") 0).2 = initialState :=
  ⟨by rfl,
    failed_request_state_unchanged initialState (Request.getProblemDetails "p1") 0
      "Problem with ID p1 does not exist" (by rfl)⟩

/-- C10: `updateComponent`, unlike `createComponent`, validates neither the
existence of the supplied dependency ids nor acyclicity: in the reachable
state `st3` it succeeds while wholesale-replacing `c2`'s dependency list
`["c1"]` with a list naming the nonexistent component `"ghost"`, whereas
`createComponent` rejects the very same dangling dependency. -/
theorem updateComponent_skips_dependency_validation :
    alistLookup st3.components "ghost" = none ∧
    (alistLookup st3.components "c2").map ComponentData.dependencies = some ["c1"] ∧
    (processRequest st3 (Request.updateComponent ghostIn) 3).1 =
      Except.ok (Payload.componentRes "Component c2 updated successfully"
        { componentId := "c2", parentProblemId := "p1", name := "ui",
          description := "ui part", dependencies := ["ghost"], status := CStatus.pending,
          complexity := 5, createdAt := 2, updatedAt := 3, metadata := [] }) ∧
    (alistLookup stGhost.components "c2").map ComponentData.dependencies = some ["ghost"] ∧
    (processRequest st3 (Request.createComponent ghostCreateIn) 3).1 =
      Except.error "Dependency component with ID ghost does not exist" :=
  ⟨by decide, by decide, by rfl, by decide, by rfl⟩

/-- C8: `calculateMetrics` on an existing Problem with zero components (no
stored component has it as parent) returns exactly the zero metrics record
with the perfect balance score 10, and does not change the state. -/
theorem metrics_of_problem_without_components (s : DecompositionState) (pid : String)
    (t : Nat) (hpid : pid ≠ "")
    (hp : (alistLookup s.problems pid).isSome)
    (hz : (s.components.map Prod.snd).filter (fun c => c.parentProblemId = pid) = []) :
    (processRequest s (Request.calculateMetricsAction pid) t).1 =
      Except.ok (Payload.metricsRes
        { componentCount := 0, averageComplexity := 0, maxDepth := 0,
          dependencyCount := 0, balanceScore := 10 }) ∧
    (processRequest s (Request.calculateMetricsAction pid) t).2 = s := by
  rcases Option.isSome_iff_exists.mp hp with ⟨p, hpv⟩
  have hm : calculateMetricsFn s pid =
      { componentCount := 0, averageComplexity := 0, maxDepth := 0,
        dependencyCount := 0, balanceScore := 10 } := by
    unfold calculateMetricsFn
    rw [hz]
    simp
  constructor <;> simp [processRequest, processRequestE, hpid, hpv, hm]

/-- Witness for C8: in `st1` the problem `p1` exists and owns no components. -/
theorem metrics_of_problem_without_components_witness :
    "p1" ≠ "" ∧ (alistLookup st1.problems "p1").isSome ∧
    (st1.components.map Prod.snd).filter (fun c => c.parentProblemId = "p1") = [] ∧
    ((processRequest st1 (Request.calculateMetricsAction "p1") 9).1 =
      Except.ok (Payload.metricsRes
        { componentCount := 0, averageComplexity := 0, maxDepth := 0,
          dependencyCount := 0, balanceScore := 10 }) ∧
    (processRequest st1 (Request.calculateMetricsAction "p1") 9).2 = st1) :=
  ⟨by decide, by decide, by decide,
    metrics_of_problem_without_components st1 "p1" 9 (by decide) (by decide) (by decide)⟩

theorem processRequest_link_eq (s : DecompositionState) (a b : String) (t : Nat)
    (ha0 : a ≠ "") (hb0 : b ≠ "") (ca : ComponentData)
    (hca : alistLookup s.components a = some ca)
    (hbs : (alistLookup s.components b).isNone = false) :
    processRequest s (Request.linkComponents a b) t =
      match checkCircularGo s.components (s.components.length + 1) [] b a with
      | Except.error e => (Except.error e, s)
      | Except.ok (true, _) => (Except.error "Cannot create circular dependency", s)
      | Except.ok (false, _) =>
        if b ∈ ca.dependencies then
          (Except.ok (Payload.componentRes
            ("Component " ++ a ++ " now depends on " ++ b) ca), s)
        else
          (Except.ok (Payload.componentRes ("Component " ++ a ++ " now depends on " ++ b)
            { ca with dependencies := ca.dependencies ++ [b], updatedAt := t }),
           { s with components := alistUpsert s.components a ({ ca with dependencies := ca.dependencies ++ [b], updatedAt := t }) }) := by
  simp only [processRequest, processRequestE]
  rw [if_neg ha0, if_neg hb0, hca, hbs]
  cases hc : checkCircularGo s.components (s.components.length + 1) [] b a with
  | error e => simp
  | ok bv =>
    obtain ⟨bb, w⟩ := bv
    cases bb with
    | true => simp
    | false =>
      by_cases hmem : b ∈ ca.dependencies
      · simp [hmem]
      · simp [hmem]

theorem wellFormedC_st3 : WellFormedC st3.components := by
  intro k c hk d hd
  have h3 : st3.components =
      [("c1", { componentId := "c1", parentProblemId := "p1", name := "core",
                description := "core part", dependencies := [], status := CStatus.pending,
                complexity := 5, createdAt := 1, updatedAt := 1, metadata := [] }),
       ("c2", { componentId := "c2", parentProblemId := "p1", name := "ui",
                description := "ui part", dependencies := ["c1"], status := CStatus.pending,
                complexity := 5, createdAt := 2, updatedAt := 2, metadata := [] })] := by
    decide
  rw [h3] at hk ⊢
  simp only [alistLookup] at hk
  by_cases h1 : "c1" = k
  · rw [if_pos h1] at hk
    injection hk with hk
    rw [← hk] at hd
    simp at hd
  · rw [if_neg h1] at hk
    by_cases h2 : "c2" = k
    · rw [if_pos h2] at hk
      injection hk with hk
      rw [← hk] at hd
      simp at hd
      subst hd
      decide
    · rw [if_neg h2] at hk
      cases hk

/-- C2 (amended): in a state whose stored dependencies all resolve, when both
endpoints exist, `linkComponents(a, b)` fails with the CycleDetected error and
leaves the state untouched exactly when `b` can already reach `a` through
existing dependency edges, and succeeds otherwise. -/
theorem linkComponents_cycle_iff (s : DecompositionState) (a b : String) (t : Nat)
    (hwf : WellFormedC s.components) (ha0 : a ≠ "") (hb0 : b ≠ "")
    (ha : (alistLookup s.components a).isSome)
    (hb : (alistLookup s.components b).isSome) :
    (((processRequest s (Request.linkComponents a b) t).1 =
        Except.error "Cannot create circular dependency" ∧
      (processRequest s (Request.linkComponents a b) t).2 = s) ↔
      ReachC s.components b a) ∧
    (¬ ReachC s.components b a →
      ∃ msg c, (processRequest s (Request.linkComponents a b) t).1 =
        Except.ok (Payload.componentRes msg c)) := by
  obtain ⟨ca, hca⟩ := Option.isSome_iff_exists.mp ha
  have hbs : (alistLookup s.components b).isNone = false := by
    rcases Option.isSome_iff_exists.mp hb with ⟨cb, hcb⟩
    simp [hcb]
  have hred := processRequest_link_eq s a b t ha0 hb0 ca hca hbs
  have hfb : remKeys s.components [] < s.components.length + 1 :=
    Nat.lt_succ_of_le (remKeys_nil_le s.components)
  obtain ⟨bb, v', hcheck⟩ := checkCircularGo_wf_ok s.components a hwf
    (s.components.length + 1) [] b hfb (Or.inr hb)
  rw [hcheck] at hred
  cases bb with
  | true =>
    have hreach := checkCircularGo_true_reach s.components a _ [] b v' hcheck
    have hred2 : processRequest s (Request.linkComponents a b) t =
        (Except.error "Cannot create circular dependency", s) := by rw [hred]
    refine ⟨⟨fun _ => hreach, fun _ => ⟨by rw [hred2], by rw [hred2]⟩⟩,
      fun hn => absurd hreach hn⟩
  | false =>
    have hnreach := checkCircularGo_false_not_reach s.components a _ b v' hcheck
    by_cases hmem : b ∈ ca.dependencies
    · have hred2 : processRequest s (Request.linkComponents a b) t =
          (Except.ok (Payload.componentRes
            ("Component " ++ a ++ " now depends on " ++ b) ca), s) := by
        rw [hred]
        simp [hmem]
      refine ⟨⟨fun hc => ?_, fun hr => absurd hr hnreach⟩,
        fun _ => ⟨_, ca, by rw [hred2]⟩⟩
      obtain ⟨h1, _⟩ := hc
      rw [hred2] at h1
      simp at h1
    · have hred2 : processRequest s (Request.linkComponents a b) t =
          (Except.ok (Payload.componentRes ("Component " ++ a ++ " now depends on " ++ b)
            ({ ca with dependencies := ca.dependencies ++ [b], updatedAt := t })),
           { s with components := alistUpsert s.components a ({ ca with dependencies := ca.dependencies ++ [b], updatedAt := t }) }) := by
        rw [hred]
        simp [hmem]
      refine ⟨⟨fun hc => ?_, fun hr => absurd hr hnreach⟩,
        fun _ => ⟨_, _, by rw [hred2]⟩⟩
      obtain ⟨h1, _⟩ := hc
      rw [hred2] at h1
      simp at h1

/-- Witness for C2 at the well-formed scenario state `st3`. -/
theorem linkComponents_cycle_iff_witness :
    WellFormedC st3.components ∧
    (((processRequest st3 (Request.linkComponents "c1" "c2") 9).1 =
        Except.error "Cannot create circular dependency" ∧
      (processRequest st3 (Request.linkComponents "c1" "c2") 9).2 = st3) ↔
      ReachC st3.components "c2" "c1") ∧
    (¬ ReachC st3.components "c2" "c1" →
      ∃ msg c, (processRequest st3 (Request.linkComponents "c1" "c2") 9).1 =
        Except.ok (Payload.componentRes msg c)) :=
  ⟨wellFormedC_st3,
    (linkComponents_cycle_iff st3 "c1" "c2" 9 wellFormedC_st3 (by decide) (by decide)
      (by decide) (by decide)).1,
    (linkComponents_cycle_iff st3 "c1" "c2" 9 wellFormedC_st3 (by decide) (by decide)
      (by decide) (by decide)).2⟩

/-- Counterexample to C2 as stated: in the reachable state `stGhost` both
`c1` and `c2` exist and `c2` cannot reach `c1`, yet `linkComponents(c1, c2)`
does not succeed — the reachability scan hits the dangling dependency id
`"ghost"` installed by `updateComponent` and fails with a TypeError. -/
theorem linkComponents_dangling_cex :
    (alistLookup stGhost.components "c1").isSome ∧
    (alistLookup stGhost.components "c2").isSome ∧
    ¬ ReachC stGhost.components "c2" "c1" ∧
    (processRequest stGhost (Request.linkComponents "c1" "c2") 4).1 =
      Except.error "TypeError: cannot read dependencies of undefined" ∧
    (processRequest stGhost (Request.linkComponents "c1" "c2") 4).2 = stGhost := by
  refine ⟨by decide, by decide, ?_, by rfl, by rfl⟩
  intro h
  rcases Relation.ReflTransGen.cases_head h with heq | ⟨z, hz, hrest⟩
  · exact absurd heq (by decide)
  · obtain ⟨c, hc, hzc⟩ := hz
    have hdeps : (alistLookup stGhost.components "c2").map ComponentData.dependencies =
        some ["ghost"] := by decide
    rw [hc] at hdeps
    simp at hdeps
    rw [hdeps] at hzc
    simp at hzc
    subst hzc
    rcases Relation.ReflTransGen.cases_head hrest with heq2 | ⟨w, hw, _⟩
    · exact absurd heq2 (by decide)
    · obtain ⟨cg, hcg, _⟩ := hw
      have hnone : alistLookup stGhost.components "ghost" = none := by decide
      rw [hnone] at hcg
      cases hcg

theorem checkCircularGo_stable (comps : List (String × ComponentData)) (a : String)
    (newA : ComponentData) :
    ∀ fuel v cur v', checkCircularGo comps fuel v cur a = Except.ok (false, v') →
      checkCircularGo (alistUpsert comps a newA) fuel v cur a = Except.ok (false, v') := by
  intro fuel
  induction fuel with
  | zero => intro v cur v' h; simp [checkCircularGo] at h
  | succ fuel ih =>
    have hfold : ∀ (deps : List String) (v0 : List String) v',
        List.foldl (ccStep (fun v d => checkCircularGo comps fuel v d a))
          (Except.ok (false, v0)) deps = Except.ok (false, v') →
        List.foldl (ccStep (fun v d => checkCircularGo (alistUpsert comps a newA) fuel v d a))
          (Except.ok (false, v0)) deps = Except.ok (false, v') := by
      intro deps
      induction deps with
      | nil => intro v0 v' h; exact h
      | cons d rest ihd =>
        intro v0 v' h
        simp only [List.foldl_cons] at h ⊢
        rw [show ccStep (fun v d => checkCircularGo comps fuel v d a)
            (Except.ok (false, v0)) d = checkCircularGo comps fuel v0 d a from rfl] at h
        rw [show ccStep (fun v d => checkCircularGo (alistUpsert comps a newA) fuel v d a)
            (Except.ok (false, v0)) d =
              checkCircularGo (alistUpsert comps a newA) fuel v0 d a from rfl]
        cases hc : checkCircularGo comps fuel v0 d a with
        | error e => rw [hc, ccFold_error] at h; cases h
        | ok bv =>
          obtain ⟨b1, v1⟩ := bv
          cases b1 with
          | true => rw [hc, ccFold_true] at h; simp at h
          | false =>
            rw [hc] at h
            rw [ih v0 d v1 hc]
            exact ihd v1 v' h
    intro v cur v' h
    simp only [checkCircularGo] at h ⊢
    by_cases hct : cur = a
    · rw [if_pos hct] at h; simp at h
    · rw [if_neg hct] at h ⊢
      by_cases hcv : cur ∈ v
      · rw [if_pos hcv] at h ⊢; exact h
      · rw [if_neg hcv] at h ⊢
        have hlu : alistLookup (alistUpsert comps a newA) cur = alistLookup comps cur := by
          rw [alistLookup_upsert]
          exact if_neg (fun hh => hct hh.symm)
        rw [hlu]
        cases hl : alistLookup comps cur with
        | none => rw [hl] at h; cases h
        | some c =>
          rw [hl] at h
          exact hfold c.dependencies (cur :: v) v' h

theorem acyclic_of_single_edge {E : String → String → Prop} (p q : String)
    (hchar : ∀ x y, E x y → x = p ∧ y = q) (hpq : p ≠ q) :
    ∀ x, ¬ Relation.TransGen E x x := by
  have hxy : ∀ x y, Relation.TransGen E x y → x = p ∧ y = q := by
    intro x y h
    induction h with
    | single h1 => exact hchar _ _ h1
    | tail h1 h2 ih =>
      obtain ⟨hx, hb⟩ := ih
      obtain ⟨hb2, hy⟩ := hchar _ _ h2
      rw [hb] at hb2
      exact absurd hb2 (Ne.symm hpq)
  intro x hx
  obtain ⟨h1, h2⟩ := hxy x x hx
  rw [h1] at h2
  exact hpq h2

theorem st3_components_eq : st3.components =
    [("c1", { componentId := "c1", parentProblemId := "p1", name := "core",
              description := "core part", dependencies := [], status := CStatus.pending,
              complexity := 5, createdAt := 1, updatedAt := 1, metadata := [] }),
     ("c2", { componentId := "c2", parentProblemId := "p1", name := "ui",
              description := "ui part", dependencies := ["c1"], status := CStatus.pending,
              complexity := 5, createdAt := 2, updatedAt := 2, metadata := [] })] := by
  decide

theorem edgeC_st3_char : ∀ x y, EdgeC st3.components x y → x = "c2" ∧ y = "c1" := by
  rintro x y ⟨c, hc, hyc⟩
  rw [st3_components_eq] at hc
  simp only [alistLookup] at hc
  by_cases h1 : "c1" = x
  · rw [if_pos h1] at hc
    injection hc with hc
    rw [← hc] at hyc
    simp at hyc
  · rw [if_neg h1] at hc
    by_cases h2 : "c2" = x
    · rw [if_pos h2] at hc
      injection hc with hc
      rw [← hc] at hyc
      simp at hyc
      exact ⟨h2.symm, hyc⟩
    · rw [if_neg h2] at hc
      cases hc

theorem acyclicC_st3 : AcyclicC st3.components :=
  acyclic_of_single_edge "c2" "c1" edgeC_st3_char (by decide)

/-- C3 (amended): calling `linkComponents(a, b)` twice in succession always
yields the same resulting state as calling it once; and in a state whose
dependencies all resolve and whose dependency relation is acyclic, a call
whose edge `a → b` already exists is a no-op that still reports success.  (In
reachable states with a cycle or a dangling dependency installed by
`updateComponent`, an existing-edge call can fail instead; the state is still
unchanged.) -/
theorem linkComponents_idempotent (s : DecompositionState) (a b : String) (t1 t2 : Nat) :
    ((processRequest (processRequest s (Request.linkComponents a b) t1).2
        (Request.linkComponents a b) t2).2 =
      (processRequest s (Request.linkComponents a b) t1).2) ∧
    (WellFormedC s.components → AcyclicC s.components →
      ∀ ca, alistLookup s.components a = some ca → b ∈ ca.dependencies →
        a ≠ "" → b ≠ "" → (alistLookup s.components b).isSome →
        (processRequest s (Request.linkComponents a b) t1).1 =
          Except.ok (Payload.componentRes
            ("Component " ++ a ++ " now depends on " ++ b) ca) ∧
        (processRequest s (Request.linkComponents a b) t1).2 = s) := by
  constructor
  · by_cases ha0 : a = ""
    · have h1 : ∀ t, processRequest s (Request.linkComponents a b) t =
          (Except.error "Invalid sourceId: must be a string", s) := by
        intro t
        simp [processRequest, processRequestE, ha0]
      rw [h1 t1]
      rw [h1 t2]
    · by_cases hb0 : b = ""
      · have h1 : ∀ t, processRequest s (Request.linkComponents a b) t =
            (Except.error "Invalid targetId: must be a string", s) := by
          intro t
          simp [processRequest, processRequestE, ha0, hb0]
        rw [h1 t1]
        rw [h1 t2]
      · cases hla : alistLookup s.components a with
        | none =>
          have h1 : ∀ t, processRequest s (Request.linkComponents a b) t =
              (Except.error ("Source component with ID " ++ a ++ " does not exist"), s) := by
            intro t
            simp [processRequest, processRequestE, ha0, hb0, hla]
          rw [h1 t1]
          rw [h1 t2]
        | some ca =>
          cases hbn : (alistLookup s.components b).isNone with
          | true =>
            have h1 : ∀ t, processRequest s (Request.linkComponents a b) t =
                (Except.error ("Target component with ID " ++ b ++ " does not exist"), s) := by
              intro t
              simp [processRequest, processRequestE, ha0, hb0, hla, hbn]
            rw [h1 t1]
            rw [h1 t2]
          | false =>
            cases hcheck : checkCircularGo s.components (s.components.length + 1) [] b a with
            | error e =>
              have h1 : ∀ t, processRequest s (Request.linkComponents a b) t =
                  (Except.error e, s) := by
                intro t
                have hr := processRequest_link_eq s a b t ha0 hb0 ca hla hbn
                rw [hcheck] at hr
                rw [hr]
              rw [h1 t1]
              rw [h1 t2]
            | ok bv =>
              obtain ⟨bb, v⟩ := bv
              cases bb with
              | true =>
                have h1 : ∀ t, processRequest s (Request.linkComponents a b) t =
                    (Except.error "Cannot create circular dependency", s) := by
                  intro t
                  have hr := processRequest_link_eq s a b t ha0 hb0 ca hla hbn
                  rw [hcheck] at hr
                  rw [hr]
                rw [h1 t1]
                rw [h1 t2]
              | false =>
                by_cases hmem : b ∈ ca.dependencies
                · have h1 : ∀ t, processRequest s (Request.linkComponents a b) t =
                      (Except.ok (Payload.componentRes
                        ("Component " ++ a ++ " now depends on " ++ b) ca), s) := by
                    intro t
                    have hr := processRequest_link_eq s a b t ha0 hb0 ca hla hbn
                    rw [hcheck] at hr
                    rw [hr]
                    simp [hmem]
                  rw [h1 t1]
                  rw [h1 t2]
                · have hba : b ≠ a := by
                    intro hq
                    rw [hq] at hcheck
                    simp [checkCircularGo] at hcheck
                  have h1 : processRequest s (Request.linkComponents a b) t1 =
                      (Except.ok (Payload.componentRes
                        ("Component " ++ a ++ " now depends on " ++ b)
                        ({ ca with dependencies := ca.dependencies ++ [b], updatedAt := t1 })),
                       { s with components := alistUpsert s.components a ({ ca with dependencies := ca.dependencies ++ [b], updatedAt := t1 }) }) := by
                    have hr := processRequest_link_eq s a b t1 ha0 hb0 ca hla hbn
                    rw [hcheck] at hr
                    rw [hr]
                    simp [hmem]
                  rw [h1]
                  set newA : ComponentData :=
                    { ca with dependencies := ca.dependencies ++ [b], updatedAt := t1 } with hnewA
                  set s' : DecompositionState :=
                    { s with components := alistUpsert s.components a newA } with hs'
                  have hla' : alistLookup s'.components a = some newA := by
                    rw [hs']
                    show alistLookup (alistUpsert s.components a newA) a = some newA
                    rw [alistLookup_upsert]
                    simp
                  have hlub : alistLookup s'.components b = alistLookup s.components b := by
                    rw [hs']
                    show alistLookup (alistUpsert s.components a newA) b = _
                    rw [alistLookup_upsert]
                    exact if_neg (fun hh => hba hh.symm)
                  have hbn' : (alistLookup s'.components b).isNone = false := by
                    rw [hlub]
                    exact hbn
                  have hlen : s'.components.length = s.components.length := by
                    rw [hs']
                    show (alistUpsert s.components a newA).length = _
                    exact alistUpsert_length_of_isSome s.components a newA (by simp [hla])
                  have hcheck' : checkCircularGo s'.components (s'.components.length + 1)
                      [] b a = Except.ok (false, v) := by
                    rw [hlen]
                    show checkCircularGo (alistUpsert s.components a newA)
                      (s.components.length + 1) [] b a = Except.ok (false, v)
                    exact checkCircularGo_stable s.components a newA _ [] b v hcheck
                  have hmem' : b ∈ newA.dependencies := by
                    rw [hnewA]
                    simp
                  have h2 : processRequest s' (Request.linkComponents a b) t2 =
                      (Except.ok (Payload.componentRes
                        ("Component " ++ a ++ " now depends on " ++ b) newA), s') := by
                    have hr := processRequest_link_eq s' a b t2 ha0 hb0 newA hla' hbn'
                    rw [hcheck'] at hr
                    rw [hr]
                    simp [hmem']
                  rw [h2]
  · intro hwf hacy ca hca hmem ha0 hb0 hb
    have hbs : (alistLookup s.components b).isNone = false := by
      rcases Option.isSome_iff_exists.mp hb with ⟨cb, hcb⟩
      simp [hcb]
    have hred := processRequest_link_eq s a b t1 ha0 hb0 ca hca hbs
    have hfb : remKeys s.components [] < s.components.length + 1 :=
      Nat.lt_succ_of_le (remKeys_nil_le s.components)
    obtain ⟨bb, v', hcheck⟩ := checkCircularGo_wf_ok s.components a hwf
      (s.components.length + 1) [] b hfb (Or.inr hb)
    cases bb with
    | true =>
      have hreach := checkCircularGo_true_reach s.components a _ [] b v' hcheck
      exact absurd (Relation.TransGen.head' ⟨ca, hca, hmem⟩ hreach) (hacy a)
    | false =>
      rw [hcheck] at hred
      have h1 : processRequest s (Request.linkComponents a b) t1 =
          (Except.ok (Payload.componentRes
            ("Component " ++ a ++ " now depends on " ++ b) ca), s) := by
        rw [hred]
        simp [hmem]
      rw [h1]
      exact ⟨rfl, rfl⟩

/-- Witness for C3 at `st3` with the existing edge `c2 → c1`. -/
theorem linkComponents_idempotent_witness :
    WellFormedC st3.components ∧ AcyclicC st3.components ∧
    ((processRequest (processRequest st3 (Request.linkComponents "c2" "c1") 7).2
        (Request.linkComponents "c2" "c1") 8).2 =
      (processRequest st3 (Request.linkComponents "c2" "c1") 7).2) ∧
    (WellFormedC st3.components → AcyclicC st3.components →
      ∀ ca, alistLookup st3.components "c2" = some ca → "c1" ∈ ca.dependencies →
        "c2" ≠ "" → "c1" ≠ "" → (alistLookup st3.components "c1").isSome →
        (processRequest st3 (Request.linkComponents "c2" "c1") 7).1 =
          Except.ok (Payload.componentRes "Component c2 now depends on c1" ca) ∧
        (processRequest st3 (Request.linkComponents "c2" "c1") 7).2 = st3) :=
  ⟨wellFormedC_st3, acyclicC_st3,
    (linkComponents_idempotent st3 "c2" "c1" 7 8).1,
    (linkComponents_idempotent st3 "c2" "c1" 7 8).2⟩

/-- Counterexample to C3 as stated: in the reachable state `stCycle` the edge
`c2 → c1` already exists, yet `linkComponents(c2, c1)` reports the
CycleDetected failure rather than a no-op success (the cycle `c1 → c2 → c1`
was installed by `updateComponent`). -/
theorem linkComponents_existing_edge_cex :
    (alistLookup stCycle.components "c2").map ComponentData.dependencies = some ["c1"] ∧
    (processRequest stCycle (Request.linkComponents "c2" "c1") 4).1 =
      Except.error "Cannot create circular dependency" ∧
    (processRequest stCycle (Request.linkComponents "c2" "c1") 4).2 = stCycle :=
  ⟨by decide, by rfl, by rfl⟩

theorem acyclic_add_edge {E E' : String → String → Prop} (a b : String)
    (hE : ∀ x y, E' x y ↔ E x y ∨ (x = a ∧ y = b))
    (hacy : ∀ x, ¬ Relation.TransGen E x x)
    (hnr : ¬ Relation.ReflTransGen E b a) :
    ∀ x, ¬ Relation.TransGen E' x x := by
  have hdec : ∀ x y, Relation.ReflTransGen E' x y →
      Relation.ReflTransGen E x y ∨
        (Relation.ReflTransGen E x a ∧ Relation.ReflTransGen E b y) := by
    intro x y h
    induction h with
    | refl => exact Or.inl Relation.ReflTransGen.refl
    | tail h1 h2 ih =>
      rcases (hE _ _).mp h2 with hold | ⟨heq1, heq2⟩
      · rcases ih with hl | ⟨hxa, hbm⟩
        · exact Or.inl (hl.tail hold)
        · exact Or.inr ⟨hxa, hbm.tail hold⟩
      · subst heq1
        subst heq2
        rcases ih with hl | ⟨hxa, _⟩
        · exact Or.inr ⟨hl, Relation.ReflTransGen.refl⟩
        · exact Or.inr ⟨hxa, Relation.ReflTransGen.refl⟩
  intro x hx
  rcases Relation.TransGen.head'_iff.mp hx with ⟨y, hxy, hyx⟩
  rcases (hE _ _).mp hxy with hold | ⟨heq1, heq2⟩
  · rcases hdec _ _ hyx with hl | ⟨hya, hbx⟩
    · exact hacy x (Relation.TransGen.head' hold hl)
    · exact hnr ((hbx.tail hold).trans hya)
  · subst heq1
    subst heq2
    rcases hdec _ _ hyx with hl | ⟨_, hbx⟩
    · exact hnr hl
    · exact hnr hbx

theorem acyclic_no_in_edges {E E' : String → String → Prop} (n : String)
    (hsub : ∀ x y, x ≠ n → E' x y → E x y)
    (hno : ∀ x, ¬ E' x n)
    (hacy : ∀ x, ¬ Relation.TransGen E x x) :
    ∀ x, ¬ Relation.TransGen E' x x := by
  have hne : ∀ x y, Relation.TransGen E' x y → y ≠ n := by
    intro x y h
    induction h with
    | single h1 => exact fun hy => hno _ (hy ▸ h1)
    | tail _ h2 _ => exact fun hy => hno _ (hy ▸ h2)
  have htrans : ∀ x y, Relation.TransGen E' x y → x ≠ n → Relation.TransGen E x y := by
    intro x y h
    induction h with
    | single h1 => exact fun hx => Relation.TransGen.single (hsub _ _ hx h1)
    | tail h1 h2 ih =>
      intro hx
      exact Relation.TransGen.tail (ih hx) (hsub _ _ (hne _ _ h1) h2)
  intro x hx
  by_cases hxn : x = n
  · exact (hne x x hx) hxn
  · exact hacy x (htrans x x hx hxn)

theorem edge_upsert_link (comps : List (String × ComponentData)) (a b : String)
    (ca newA : ComponentData) (hca : alistLookup comps a = some ca)
    (hdep : newA.dependencies = ca.dependencies ++ [b]) :
    ∀ x y, EdgeC (alistUpsert comps a newA) x y ↔
      EdgeC comps x y ∨ (x = a ∧ y = b) := by
  intro x y
  constructor
  · rintro ⟨c, hc, hyc⟩
    rw [alistLookup_upsert] at hc
    by_cases hax : a = x
    · rw [if_pos hax] at hc
      injection hc with hc
      rw [← hc, hdep] at hyc
      rcases List.mem_append.mp hyc with hold | hb
      · exact Or.inl ⟨ca, hax ▸ hca, hold⟩
      · simp at hb
        exact Or.inr ⟨hax.symm, hb⟩
    · rw [if_neg hax] at hc
      exact Or.inl ⟨c, hc, hyc⟩
  · rintro (⟨c, hc, hyc⟩ | ⟨rfl, rfl⟩)
    · by_cases hax : a = x
      · subst hax
        rw [hca] at hc
        injection hc with hc
        refine ⟨newA, ?_, ?_⟩
        · rw [alistLookup_upsert, if_pos rfl]
        · rw [hdep]
          exact List.mem_append.mpr (Or.inl (hc ▸ hyc))
      · refine ⟨c, ?_, hyc⟩
        rw [alistLookup_upsert, if_neg hax]
        exact hc
    · refine ⟨newA, ?_, ?_⟩
      · rw [alistLookup_upsert, if_pos rfl]
      · rw [hdep]
        simp

theorem wellFormedC_link (comps : List (String × ComponentData)) (a b : String)
    (ca newA : ComponentData) (hwf : WellFormedC comps)
    (hca : alistLookup comps a = some ca)
    (hb : (alistLookup comps b).isSome)
    (hdep : newA.dependencies = ca.dependencies ++ [b]) :
    WellFormedC (alistUpsert comps a newA) := by
  intro k c hk d hd
  rw [alistLookup_upsert] at hk
  rw [alistLookup_isSome_upsert]
  by_cases hak : a = k
  · rw [if_pos hak] at hk
    injection hk with hk
    rw [← hk, hdep] at hd
    rcases List.mem_append.mp hd with hold | hbd
    · exact Or.inr (hwf a ca hca d hold)
    · simp at hbd
      exact Or.inr (hbd ▸ hb)
  · rw [if_neg hak] at hk
    exact Or.inr (hwf k c hk d hd)

theorem acyclicC_link (comps : List (String × ComponentData)) (a b : String)
    (ca newA : ComponentData) (hacy : AcyclicC comps)
    (hca : alistLookup comps a = some ca)
    (hdep : newA.dependencies = ca.dependencies ++ [b])
    (hnr : ¬ ReachC comps b a) :
    AcyclicC (alistUpsert comps a newA) :=
  acyclic_add_edge a b (edge_upsert_link comps a b ca newA hca hdep) hacy hnr

theorem wellFormedC_insert_fresh (comps : List (String × ComponentData))
    (c : ComponentData) (hwf : WellFormedC comps)
    (hdeps : ∀ d ∈ c.dependencies, (alistLookup comps d).isSome) :
    WellFormedC (alistUpsert comps c.componentId c) := by
  intro k ck hk d hd
  rw [alistLookup_upsert] at hk
  rw [alistLookup_isSome_upsert]
  by_cases hak : c.componentId = k
  · rw [if_pos hak] at hk
    injection hk with hk
    rw [← hk] at hd
    exact Or.inr (hdeps d hd)
  · rw [if_neg hak] at hk
    exact Or.inr (hwf k ck hk d hd)

theorem acyclicC_insert_fresh (comps : List (String × ComponentData))
    (c : ComponentData) (hwf : WellFormedC comps) (hacy : AcyclicC comps)
    (hfresh : alistLookup comps c.componentId = none)
    (hdeps : ∀ d ∈ c.dependencies, (alistLookup comps d).isSome) :
    AcyclicC (alistUpsert comps c.componentId c) := by
  apply acyclic_no_in_edges (E := EdgeC comps) c.componentId
  · rintro x y hx ⟨cx, hcx, hycx⟩
    rw [alistLookup_upsert] at hcx
    rw [if_neg (fun hh => hx hh.symm)] at hcx
    exact ⟨cx, hcx, hycx⟩
  · rintro x ⟨cx, hcx, hycx⟩
    rw [alistLookup_upsert] at hcx
    by_cases hax : c.componentId = x
    · rw [if_pos hax] at hcx
      injection hcx with hcx
      rw [← hcx] at hycx
      have hs := hdeps _ hycx
      rw [hfresh] at hs
      simp at hs
    · rw [if_neg hax] at hcx
      have hs := hwf x cx hcx _ hycx
      rw [hfresh] at hs
      simp at hs
  · exact hacy

theorem components_after_createProblem (s : DecompositionState) (d : ProblemInput)
    (t : Nat) :
    (processRequest s (Request.createProblem d) t).2.components = s.components := by
  unfold processRequest
  cases hE : processRequestE s (Request.createProblem d) t with
  | error e => rfl
  | ok ps =>
    obtain ⟨p, s'⟩ := ps
    show s'.components = s.components
    simp only [processRequestE] at hE
    repeat' split at hE
    all_goals (cases hE; try exact rfl)

theorem components_after_updateProblem (s : DecompositionState) (d : ProblemInput) (t : Nat) :
    (processRequest s (Request.updateProblem d) t).2.components = s.components := by
  unfold processRequest
  cases hE : processRequestE s (Request.updateProblem d) t with
  | error e => rfl
  | ok ps =>
    obtain ⟨p, s'⟩ := ps
    show s'.components = s.components
    simp only [processRequestE] at hE
    repeat' split at hE
    all_goals (cases hE; try exact rfl)

theorem components_after_startPhase (s : DecompositionState) (d : PhaseInput) (t : Nat) :
    (processRequest s (Request.startPhase d) t).2.components = s.components := by
  unfold processRequest
  cases hE : processRequestE s (Request.startPhase d) t with
  | error e => rfl
  | ok ps =>
    obtain ⟨p, s'⟩ := ps
    show s'.components = s.components
    simp only [processRequestE] at hE
    repeat' split at hE
    all_goals (cases hE; try exact rfl)

theorem components_after_completePhase (s : DecompositionState) (pid prid : String) (t : Nat) :
    (processRequest s (Request.completePhase pid prid) t).2.components = s.components := by
  unfold processRequest
  cases hE : processRequestE s (Request.completePhase pid prid) t with
  | error e => rfl
  | ok ps =>
    obtain ⟨p, s'⟩ := ps
    show s'.components = s.components
    simp only [processRequestE] at hE
    repeat' split at hE
    all_goals (cases hE; try exact rfl)

theorem components_after_calculateMetricsAction (s : DecompositionState) (prid : String) (t : Nat) :
    (processRequest s (Request.calculateMetricsAction prid) t).2.components = s.components := by
  unfold processRequest
  cases hE : processRequestE s (Request.calculateMetricsAction prid) t with
  | error e => rfl
  | ok ps =>
    obtain ⟨p, s'⟩ := ps
    show s'.components = s.components
    simp only [processRequestE] at hE
    repeat' split at hE
    all_goals (cases hE; try exact rfl)

theorem components_after_getDecomposition (s : DecompositionState) (prid : String) (t : Nat) :
    (processRequest s (Request.getDecomposition prid) t).2.components = s.components := by
  unfold processRequest
  cases hE : processRequestE s (Request.getDecomposition prid) t with
  | error e => rfl
  | ok ps =>
    obtain ⟨p, s'⟩ := ps
    show s'.components = s.components
    simp only [processRequestE] at hE
    repeat' split at hE
    all_goals (cases hE; try exact rfl)

theorem components_after_getComponentDetails (s : DecompositionState) (cid : String) (t : Nat) :
    (processRequest s (Request.getComponentDetails cid) t).2.components = s.components := by
  unfold processRequest
  cases hE : processRequestE s (Request.getComponentDetails cid) t with
  | error e => rfl
  | ok ps =>
    obtain ⟨p, s'⟩ := ps
    show s'.components = s.components
    simp only [processRequestE] at hE
    repeat' split at hE
    all_goals (cases hE; try exact rfl)

theorem components_after_getProblemDetails (s : DecompositionState) (prid : String) (t : Nat) :
    (processRequest s (Request.getProblemDetails prid) t).2.components = s.components := by
  unfold processRequest
  cases hE : processRequestE s (Request.getProblemDetails prid) t with
  | error e => rfl
  | ok ps =>
    obtain ⟨p, s'⟩ := ps
    show s'.components = s.components
    simp only [processRequestE] at hE
    repeat' split at hE
    all_goals (cases hE; try exact rfl)

theorem components_after_unknownAction (s : DecompositionState) (act : String) (t : Nat) :
    (processRequest s (Request.unknownAction act) t).2.components = s.components := by
  unfold processRequest
  cases hE : processRequestE s (Request.unknownAction act) t with
  | error e => rfl
  | ok ps =>
    obtain ⟨p, s'⟩ := ps
    show s'.components = s.components
    simp only [processRequestE] at hE
    cases hE

theorem components_after_getPhaseHistory (s : DecompositionState) (t : Nat) :
    (processRequest s Request.getPhaseHistory t).2.components = s.components := by
  unfold processRequest
  cases hE : processRequestE s Request.getPhaseHistory t with
  | error e => rfl
  | ok ps =>
    obtain ⟨p, s'⟩ := ps
    show s'.components = s.components
    simp only [processRequestE] at hE
    cases hE
    exact rfl

/-- C1 (amended): every operation of the engine other than `updateComponent`
preserves well-formedness (every stored dependency id resolves) and
acyclicity of the dependency relation over the full component universe.
`updateComponent` installs its dependency list unvalidated and can break the
invariant, as the counterexample shows. -/
theorem ops_preserve_acyclicity (s : DecompositionState) (req : Request) (t : Nat)
    (hwf : WellFormedC s.components) (hacy : AcyclicC s.components)
    (hnu : ∀ d, req ≠ Request.updateComponent d) :
    WellFormedC (processRequest s req t).2.components ∧
      AcyclicC (processRequest s req t).2.components := by
  cases req with
  | updateComponent d => exact absurd rfl (hnu d)
  | createProblem d =>
    rw [components_after_createProblem]
    exact ⟨hwf, hacy⟩
  | updateProblem d =>
    rw [components_after_updateProblem]
    exact ⟨hwf, hacy⟩
  | startPhase d =>
    rw [components_after_startPhase]
    exact ⟨hwf, hacy⟩
  | completePhase pid prid =>
    rw [components_after_completePhase]
    exact ⟨hwf, hacy⟩
  | calculateMetricsAction prid =>
    rw [components_after_calculateMetricsAction]
    exact ⟨hwf, hacy⟩
  | getDecomposition prid =>
    rw [components_after_getDecomposition]
    exact ⟨hwf, hacy⟩
  | getComponentDetails cid =>
    rw [components_after_getComponentDetails]
    exact ⟨hwf, hacy⟩
  | getProblemDetails prid =>
    rw [components_after_getProblemDetails]
    exact ⟨hwf, hacy⟩
  | getPhaseHistory =>
    rw [components_after_getPhaseHistory]
    exact ⟨hwf, hacy⟩
  | unknownAction act =>
    rw [components_after_unknownAction]
    exact ⟨hwf, hacy⟩
  | createComponent d =>
    unfold processRequest
    cases hE : processRequestE s (Request.createComponent d) t with
    | error e => exact ⟨hwf, hacy⟩
    | ok ps =>
      obtain ⟨p, s'⟩ := ps
      show WellFormedC s'.components ∧ AcyclicC s'.components
      simp only [processRequestE] at hE
      split at hE
      · cases hE
      · rename_i cd hv
        split at hE
        · cases hE
        · rename_i hdup
          split at hE
          · cases hE
          · rename_i hpar
            split at hE
            · cases hE
            · rename_i hfind
              cases hE
              have hfresh : alistLookup s.components cd.componentId = none := by
                cases hq : alistLookup s.components cd.componentId
                · rfl
                · rw [hq] at hdup; simp at hdup
              have hdeps : ∀ dd ∈ cd.dependencies,
                  (alistLookup s.components dd).isSome := by
                intro dd hdd
                have hf := List.find?_eq_none.mp hfind dd hdd
                cases hq : alistLookup s.components dd
                · rw [hq] at hf; simp at hf
                · simp
              exact ⟨wellFormedC_insert_fresh s.components cd hwf hdeps,
                acyclicC_insert_fresh s.components cd hwf hacy hfresh hdeps⟩
  | linkComponents a b =>
    by_cases ha0 : a = ""
    · have h1 : processRequest s (Request.linkComponents a b) t =
          (Except.error "Invalid sourceId: must be a string", s) := by
        simp [processRequest, processRequestE, ha0]
      rw [h1]
      exact ⟨hwf, hacy⟩
    · by_cases hb0 : b = ""
      · have h1 : processRequest s (Request.linkComponents a b) t =
            (Except.error "Invalid targetId: must be a string", s) := by
          simp [processRequest, processRequestE, ha0, hb0]
        rw [h1]
        exact ⟨hwf, hacy⟩
      · cases hla : alistLookup s.components a with
        | none =>
          have h1 : processRequest s (Request.linkComponents a b) t =
              (Except.error ("Source component with ID " ++ a ++ " does not exist"), s) := by
            simp [processRequest, processRequestE, ha0, hb0, hla]
          rw [h1]
          exact ⟨hwf, hacy⟩
        | some ca =>
          cases hbn : (alistLookup s.components b).isNone with
          | true =>
            have h1 : processRequest s (Request.linkComponents a b) t =
                (Except.error ("Target component with ID " ++ b ++ " does not exist"), s) := by
              simp [processRequest, processRequestE, ha0, hb0, hla, hbn]
            rw [h1]
            exact ⟨hwf, hacy⟩
          | false =>
            have hbs : (alistLookup s.components b).isSome := by
              cases hq : alistLookup s.components b
              · rw [hq] at hbn; simp at hbn
              · simp
            have hred := processRequest_link_eq s a b t ha0 hb0 ca hla hbn
            cases hcheck : checkCircularGo s.components
                (s.components.length + 1) [] b a with
            | error e =>
              rw [hcheck] at hred
              have h1 : processRequest s (Request.linkComponents a b) t =
                  (Except.error e, s) := by rw [hred]
              rw [h1]
              exact ⟨hwf, hacy⟩
            | ok bv =>
              obtain ⟨bb, v⟩ := bv
              rw [hcheck] at hred
              cases bb with
              | true =>
                have h1 : processRequest s (Request.linkComponents a b) t =
                    (Except.error "Cannot create circular dependency", s) := by rw [hred]
                rw [h1]
                exact ⟨hwf, hacy⟩
              | false =>
                by_cases hmem : b ∈ ca.dependencies
                · have h1 : processRequest s (Request.linkComponents a b) t =
                      (Except.ok (Payload.componentRes
                        ("Component " ++ a ++ " now depends on " ++ b) ca), s) := by
                    rw [hred]
                    simp [hmem]
                  rw [h1]
                  exact ⟨hwf, hacy⟩
                · have hnr := checkCircularGo_false_not_reach s.components a _ b v hcheck
                  have h1 : processRequest s (Request.linkComponents a b) t =
                      (Except.ok (Payload.componentRes
                        ("Component " ++ a ++ " now depends on " ++ b)
                        ({ ca with dependencies := ca.dependencies ++ [b], updatedAt := t })),
                       { s with components := alistUpsert s.components a ({ ca with dependencies := ca.dependencies ++ [b], updatedAt := t }) }) := by
                    rw [hred]
                    simp [hmem]
                  rw [h1]
                  exact ⟨wellFormedC_link s.components a b ca _ hwf hla hbs rfl,
                    acyclicC_link s.components a b ca _ hacy hla rfl hnr⟩

/-- Witness for C1 (amended) at a concrete operation on the scenario state. -/
theorem ops_preserve_acyclicity_witness :
    WellFormedC st3.components ∧ AcyclicC st3.components ∧
    (∀ d, Request.startPhase phIn1 ≠ Request.updateComponent d) ∧
    (WellFormedC (processRequest st3 (Request.startPhase phIn1) 3).2.components ∧
      AcyclicC (processRequest st3 (Request.startPhase phIn1) 3).2.components) :=
  ⟨wellFormedC_st3, acyclicC_st3, fun _ h => Request.noConfusion h,
    ops_preserve_acyclicity st3 (Request.startPhase phIn1) 3 wellFormedC_st3 acyclicC_st3
      (fun _ h => Request.noConfusion h)⟩

/-- Counterexample to C1 as stated: the reachable state `st3` is acyclic, and
the `updateComponent` operation that produces `stCycle` closes the dependency
cycle `c1 → c2 → c1`, so not every operation preserves acyclicity. -/
theorem updateComponent_breaks_acyclicity_cex :
    AcyclicC st3.components ∧
    stCycle = (processRequest st3 (Request.updateComponent cycIn) 3).2 ∧
    ¬ AcyclicC stCycle.components := by
  refine ⟨acyclicC_st3, rfl, ?_⟩
  intro hacy
  apply hacy "c1"
  have h1 : EdgeC stCycle.components "c1" "c2" := by
    refine ⟨{ componentId := "c1", parentProblemId := "p1", name := "core",
              description := "core part", dependencies := ["c2"],
              status := CStatus.pending, complexity := 5, createdAt := 1,
              updatedAt := 3, metadata := [] }, ?_, ?_⟩
    · decide
    · simp
  have h2 : EdgeC stCycle.components "c2" "c1" := by
    refine ⟨{ componentId := "c2", parentProblemId := "p1", name := "ui",
              description := "ui part", dependencies := ["c1"],
              status := CStatus.pending, complexity := 5, createdAt := 2,
              updatedAt := 2, metadata := [] }, ?_, ?_⟩
    · decide
    · simp
  exact Relation.TransGen.head h1 (Relation.TransGen.single h2)

theorem dfsFold_none
    (r : List String → List (String × Nat) → String →
      Option (Nat × List String × List (String × Nat)))
    (deps : List String) : List.foldl (dfsStep r) none deps = none := by
  induction deps with
  | nil => rfl
  | cons d rest ih => simpa [dfsStep] using ih

theorem dfsGo_mono (g : List (String × List String)) :
    ∀ fuel v dp n d v' dp', dfsGo g fuel v dp n = some (d, v', dp') →
      ∀ x ∈ v, x ∈ v' := by
  intro fuel
  induction fuel with
  | zero => intro v dp n d v' dp' h; simp [dfsGo] at h
  | succ fuel ih =>
    have hfold : ∀ (deps : List String) (m0 : Nat) v0 dp0 d v' dp',
        List.foldl (dfsStep (fun v dp d => dfsGo g fuel v dp d))
          (some (m0, v0, dp0)) deps = some (d, v', dp') →
        ∀ x ∈ v0, x ∈ v' := by
      intro deps
      induction deps with
      | nil =>
        intro m0 v0 dp0 d v' dp' h x hx
        simp only [List.foldl_nil] at h
        cases h
        exact hx
      | cons dd rest ihd =>
        intro m0 v0 dp0 d v' dp' h x hx
        simp only [List.foldl_cons] at h
        rw [show dfsStep (fun v dp d => dfsGo g fuel v dp d) (some (m0, v0, dp0)) dd =
            (match dfsGo g fuel v0 dp0 dd with
             | none => none
             | some (d1, v1, dp1) => some (max m0 d1, v1, dp1)) from rfl] at h
        cases hc : dfsGo g fuel v0 dp0 dd with
        | none => rw [hc, dfsFold_none] at h; cases h
        | some tr =>
          obtain ⟨d1, v1, dp1⟩ := tr
          rw [hc] at h
          exact ihd _ _ _ _ _ _ h x (ih v0 dp0 dd d1 v1 dp1 hc x hx)
    intro v dp n d v' dp' h
    simp only [dfsGo] at h
    cases hm : alistLookup dp n with
    | some dd =>
      rw [hm] at h
      cases h
      exact fun x hx => hx
    | none =>
      rw [hm] at h
      by_cases hv : n ∈ v
      · rw [if_pos hv] at h
        cases h
        exact fun x hx => hx
      · rw [if_neg hv] at h
        by_cases hlen : (depsOf g n).length = 0
        · rw [if_pos hlen] at h
          cases h
          exact fun x hx => List.mem_cons_of_mem n hx
        · rw [if_neg hlen] at h
          cases hf : List.foldl (dfsStep (fun v dp d => dfsGo g fuel v dp d))
              (some (0, n :: v, dp)) (depsOf g n) with
          | none => rw [hf] at h; cases h
          | some tr =>
            obtain ⟨mm, v2, dp2⟩ := tr
            rw [hf] at h
            cases h
            intro x hx
            have hx2 : x ∈ v2 := hfold _ _ _ _ _ _ _ hf x (List.mem_cons_of_mem n hx)
            have hne : x ≠ n := by
              intro he
              rw [he] at hx
              exact hv hx
            exact (List.mem_erase_of_ne hne).mpr hx2

theorem dfsFold_total (g : List (String × List String)) (fuel : Nat)
    (H : ∀ v dp n, remKeys g v < fuel → dfsGo g fuel v dp n ≠ none) :
    ∀ (deps : List String) (m0 : Nat) (v0 : List String) (dp0 : List (String × Nat)),
      remKeys g v0 < fuel →
      List.foldl (dfsStep (fun v dp d => dfsGo g fuel v dp d))
        (some (m0, v0, dp0)) deps ≠ none := by
  intro deps
  induction deps with
  | nil => intro m0 v0 dp0 hb h; cases h
  | cons dd rest ihd =>
    intro m0 v0 dp0 hb
    simp only [List.foldl_cons]
    rw [show dfsStep (fun v dp d => dfsGo g fuel v dp d) (some (m0, v0, dp0)) dd =
        (match dfsGo g fuel v0 dp0 dd with
         | none => none
         | some (d1, v1, dp1) => some (max m0 d1, v1, dp1)) from rfl]
    cases hc : dfsGo g fuel v0 dp0 dd with
    | none => exact absurd hc (H v0 dp0 dd hb)
    | some tr =>
      obtain ⟨d1, v1, dp1⟩ := tr
      have hs := dfsGo_mono g fuel v0 dp0 dd d1 v1 dp1 hc
      exact ihd (max m0 d1) v1 dp1
        (Nat.lt_of_le_of_lt (remKeys_le_of_subset g v0 v1 hs) hb)

theorem dfsGo_total (g : List (String × List String)) :
    ∀ fuel v dp n, remKeys g v < fuel → dfsGo g fuel v dp n ≠ none := by
  intro fuel
  induction fuel with
  | zero => intro v dp n hb; omega
  | succ fuel ih =>
    intro v dp n hb
    simp only [dfsGo]
    cases hm : alistLookup dp n with
    | some dd => simp
    | none =>
      by_cases hv : n ∈ v
      · simp [hv]
      · rw [if_neg hv]
        by_cases hlen : (depsOf g n).length = 0
        · simp [hlen]
        · rw [if_neg hlen]
          have hkey : n ∈ g.map Prod.fst := by
            cases hq : alistLookup g n with
            | none => exact absurd (by simp [depsOf, hq]) hlen
            | some l => exact (alistLookup_isSome_iff_mem_keys g n).mp (by simp [hq])
          have hlt := remKeys_cons_lt g v n hkey hv
          have hfold := dfsFold_total g fuel ih (depsOf g n) 0 (n :: v) dp (by omega)
          cases hf : List.foldl (dfsStep (fun v dp d => dfsGo g fuel v dp d))
              (some (0, n :: v, dp)) (depsOf g n) with
          | none => exact absurd hf hfold
          | some tr =>
            obtain ⟨mm, v2, dp2⟩ := tr
            simp

/-- C6: on every finite dependency graph, cyclic ones included, the depth
computation terminates and returns a number: the fuel `calculateMaxDepth`
passes can never run out, because a node already on the current traversal
path contributes a local depth of 0 instead of recursing (second conjunct:
on the two-cycle `a ↔ b` the computation returns 2 rather than failing). -/
theorem calculateMaxDepth_total :
    (∀ g, ∃ n, calculateMaxDepth g = some n) ∧
    calculateMaxDepth [("a", ["b"]), ("b", ["a"])] = some 2 := by
  constructor
  · intro g
    have hb : remKeys g [] < g.length + 1 := Nat.lt_succ_of_le (remKeys_nil_le g)
    have h := dfsFold_total g (g.length + 1)
      (fun v dp n hb => dfsGo_total g (g.length + 1) v dp n hb)
      (g.map Prod.fst) 0 [] [] hb
    unfold calculateMaxDepth
    cases hf : List.foldl (dfsStep (fun v dp d => dfsGo g (g.length + 1) v dp d))
        (some (0, [], [])) (g.map Prod.fst) with
    | none => exact absurd hf h
    | some tr =>
      obtain ⟨m, v, dp⟩ := tr
      exact ⟨m, rfl⟩
  · decide

theorem foldl_max_override (f' : String → Nat) (d1 : Nat) (c : String) (rest : List String)
    (hagree : ∀ d ∈ rest, d = c → f' d = d1) :
    ∀ m0, List.foldl (fun acc d => max acc (if d = c then d1 else f' d)) m0 (c :: rest) =
      List.foldl (fun acc d => max acc (f' d)) (max m0 d1) rest := by
  intro m0
  rw [List.foldl_cons, if_pos rfl]
  apply List.foldl_ext
  intro acc d hd
  show max acc (if d = c then d1 else f' d) = max acc (f' d)
  by_cases hdc : d = c
  · rw [if_pos hdc, hagree d hd hdc]
  · rw [if_neg hdc]

theorem depthR_func (g : List (String × List String)) :
    ∀ n d1, DepthR g n d1 → ∀ d2, DepthR g n d2 → d1 = d2 := by
  intro n d1 h1
  induction h1 with
  | leaf m hl =>
    intro d2 h2
    cases h2 with
    | leaf m2 hl2 => rfl
    | node m2 f hne2 hf2 => exact absurd hl hne2
  | node m f hne hf ih =>
    intro d2 h2
    cases h2 with
    | leaf m2 hl2 => exact absurd hl2 hne
    | node m2 f2 hne2 hf2 =>
      have hmap : (depsOf g m).map f = (depsOf g m).map f2 :=
        List.map_congr_left (fun d hd => ih d hd (f2 d) (hf2 d hd))
      rw [hmap]

theorem dfsGo_acyclic (g : List (String × List String)) (hacy : AcyclicG g) :
    ∀ fuel v dp n r,
      (∀ k dd, alistLookup dp k = some dd → DepthR g k dd) →
      (∀ x ∈ v, (alistLookup dp x).isSome ∨ Relation.TransGen (EdgeG g) x n) →
      v.Nodup →
      dfsGo g fuel v dp n = some r →
      DepthR g n r.1 ∧
      (∀ k dd, alistLookup r.2.2 k = some dd → DepthR g k dd) ∧
      (∀ k dd, alistLookup dp k = some dd → alistLookup r.2.2 k = some dd) ∧
      alistLookup r.2.2 n = some r.1 ∧
      (∀ x ∈ r.2.1, (alistLookup r.2.2 x).isSome ∨ x ∈ v) ∧
      (∀ x ∈ v, x ∈ r.2.1) ∧ r.2.1.Nodup := by
  intro fuel
  induction fuel with
  | zero => intro v dp n r _ _ _ h; simp [dfsGo] at h
  | succ fuel ih =>
    intro v dp n
    have hfold : ∀ (deps : List String) (m0 : Nat) (v0 : List String)
        (dp0 : List (String × Nat)) (r : Nat × List String × List (String × Nat)),
        (∀ d ∈ deps, d ∈ depsOf g n) →
        (∀ k dd, alistLookup dp0 k = some dd → DepthR g k dd) →
        (∀ x ∈ v0, (alistLookup dp0 x).isSome ∨ Relation.ReflTransGen (EdgeG g) x n) →
        v0.Nodup →
        List.foldl (dfsStep (fun v dp d => dfsGo g fuel v dp d))
          (some (m0, v0, dp0)) deps = some r →
        (∃ f : String → Nat, (∀ d ∈ deps, DepthR g d (f d)) ∧
          r.1 = List.foldl (fun acc d => max acc (f d)) m0 deps) ∧
        (∀ k dd, alistLookup r.2.2 k = some dd → DepthR g k dd) ∧
        (∀ k dd, alistLookup dp0 k = some dd → alistLookup r.2.2 k = some dd) ∧
        (∀ x ∈ r.2.1, (alistLookup r.2.2 x).isSome ∨ x ∈ v0) ∧
        (∀ x ∈ v0, x ∈ r.2.1) ∧ r.2.1.Nodup := by
      intro deps
      induction deps with
      | nil =>
        intro m0 v0 dp0 r _ hDS _ hND h
        simp only [List.foldl_nil] at h
        cases h
        exact ⟨⟨fun _ => 0, fun d hd => absurd hd (List.not_mem_nil d), rfl⟩,
          hDS, fun k dd hk => hk, fun x hx => Or.inr hx, fun x hx => hx, hND⟩
      | cons c rest ihd =>
        intro m0 v0 dp0 r hsub hDS hLANC hND h
        simp only [List.foldl_cons] at h
        rw [show dfsStep (fun v dp d => dfsGo g fuel v dp d) (some (m0, v0, dp0)) c =
            (match dfsGo g fuel v0 dp0 c with
             | none => none
             | some (d1, v1, dp1) => some (max m0 d1, v1, dp1)) from rfl] at h
        cases hc : dfsGo g fuel v0 dp0 c with
        | none => rw [hc, dfsFold_none] at h; cases h
        | some tr =>
          obtain ⟨d1, v1, dp1⟩ := tr
          rw [hc] at h
          have hEdge : EdgeG g n c := hsub c (List.mem_cons_self c rest)
          have hANCc : ∀ x ∈ v0, (alistLookup dp0 x).isSome ∨
              Relation.TransGen (EdgeG g) x c := by
            intro x hx
            rcases hLANC x hx with hs | hr
            · exact Or.inl hs
            · exact Or.inr (Relation.TransGen.tail' hr hEdge)
          obtain ⟨hd1, hDS1, hmono1, hself1, hpost1, hsub1, hnd1⟩ :=
            ih v0 dp0 c (d1, v1, dp1) hDS hANCc hND hc
          have hLANC1 : ∀ x ∈ v1, (alistLookup dp1 x).isSome ∨
              Relation.ReflTransGen (EdgeG g) x n := by
            intro x hx
            rcases hpost1 x hx with hs | hx0
            · exact Or.inl hs
            · rcases hLANC x hx0 with hs | hr
              · rcases Option.isSome_iff_exists.mp hs with ⟨dd, hdd⟩
                exact Or.inl (by rw [hmono1 x dd hdd]; rfl)
              · exact Or.inr hr
          obtain ⟨⟨f', hf', hm'⟩, hDSr, hmonor, hpostr, hsubr, hndr⟩ :=
            ihd (max m0 d1) v1 dp1 r (fun d hd => hsub d (List.mem_cons_of_mem c hd))
              hDS1 hLANC1 hnd1 h
          refine ⟨⟨fun x => if x = c then d1 else f' x, ?_, ?_⟩, hDSr, ?_, ?_, ?_, hndr⟩
          · intro d hd
            rcases List.mem_cons.mp hd with rfl | hd'
            · simpa using hd1
            · show DepthR g d (if d = c then d1 else f' d)
              by_cases hdc : d = c
              · subst hdc
                simpa using hd1
              · rw [if_neg hdc]
                exact hf' d hd'
          · rw [hm']
            exact (foldl_max_override f' d1 c rest
              (fun d hd hdc => by
                subst hdc
                exact depthR_func g d (f' d) (hf' d hd) d1 hd1) m0).symm
          · intro k dd hk
            exact hmonor k dd (hmono1 k dd hk)
          · intro x hx
            rcases hpostr x hx with hs | hx1
            · exact Or.inl hs
            · rcases hpost1 x hx1 with hs | hx0
              · rcases Option.isSome_iff_exists.mp hs with ⟨dd, hdd⟩
                exact Or.inl (by rw [hmonor x dd hdd]; rfl)
              · exact Or.inr hx0
          · exact fun x hx => hsubr x (hsub1 x hx)
    intro r hDS hANC hND h
    simp only [dfsGo] at h
    cases hm : alistLookup dp n with
    | some dd =>
      rw [hm] at h
      cases h
      exact ⟨hDS n dd hm, hDS, fun k d2 hk => hk, hm,
        fun x hx => Or.inr hx, fun x hx => hx, hND⟩
    | none =>
      rw [hm] at h
      by_cases hv : n ∈ v
      · rcases hANC n hv with hs | htg
        · rw [hm] at hs
          simp at hs
        · exact absurd htg (hacy n)
      · rw [if_neg hv] at h
        by_cases hlen : (depsOf g n).length = 0
        · rw [if_pos hlen] at h
          cases h
          have hleaf : DepthR g n 1 := DepthR.leaf n (List.length_eq_zero.mp hlen)
          refine ⟨hleaf, ?_, ?_, ?_, ?_, ?_, ?_⟩
          · intro k d2 hk
            rw [alistLookup_upsert] at hk
            by_cases hkn : n = k
            · rw [if_pos hkn] at hk
              injection hk with hk
              rw [← hk]
              exact hkn ▸ hleaf
            · rw [if_neg hkn] at hk
              exact hDS k d2 hk
          · intro k d2 hk
            rw [alistLookup_upsert]
            by_cases hkn : n = k
            · subst hkn
              rw [hm] at hk
              cases hk
            · rw [if_neg hkn]
              exact hk
          · rw [alistLookup_upsert, if_pos rfl]
          · intro x hx
            rcases List.mem_cons.mp hx with rfl | hxv
            · left
              rw [alistLookup_upsert, if_pos rfl]
              rfl
            · right
              exact hxv
          · exact fun x hx => List.mem_cons_of_mem n hx
          · exact List.nodup_cons.mpr ⟨hv, hND⟩
        · rw [if_neg hlen] at h
          cases hfr : List.foldl (dfsStep (fun v dp d => dfsGo g fuel v dp d))
              (some (0, n :: v, dp)) (depsOf g n) with
          | none => rw [hfr] at h; cases h
          | some tr =>
            obtain ⟨mm, v2, dp2⟩ := tr
            rw [hfr] at h
            cases h
            have hLANC0 : ∀ x ∈ n :: v, (alistLookup dp x).isSome ∨
                Relation.ReflTransGen (EdgeG g) x n := by
              intro x hx
              rcases List.mem_cons.mp hx with rfl | hxv
              · exact Or.inr Relation.ReflTransGen.refl
              · rcases hANC x hxv with hs | htg
                · exact Or.inl hs
                · exact Or.inr htg.to_reflTransGen
            obtain ⟨⟨f, hfdep, hmm⟩, hDS2, hmono2, hpost2, hsub2, hnd2⟩ :=
              hfold (depsOf g n) 0 (n :: v) dp (mm, v2, dp2) (fun d hd => hd)
                hDS hLANC0 (List.nodup_cons.mpr ⟨hv, hND⟩) hfr
            have hne : depsOf g n ≠ [] := fun hq => hlen (by rw [hq]; rfl)
            have hnode : DepthR g n (1 + mm) := by
              have h1 : mm = maxList ((depsOf g n).map f) := by
                have hmm2 : mm = List.foldl (fun acc d => max acc (f d)) 0 (depsOf g n) := hmm
                rw [hmm2]
                unfold maxList
                rw [List.foldl_map]
              rw [h1]
              exact DepthR.node n f hne hfdep
            refine ⟨hnode, ?_, ?_, ?_, ?_, ?_, ?_⟩
            · intro k d2 hk
              rw [alistLookup_upsert] at hk
              by_cases hkn : n = k
              · rw [if_pos hkn] at hk
                injection hk with hk
                rw [← hk]
                exact hkn ▸ hnode
              · rw [if_neg hkn] at hk
                exact hDS2 k d2 hk
            · intro k d2 hk
              rw [alistLookup_upsert]
              by_cases hkn : n = k
              · subst hkn
                rw [hm] at hk
                cases hk
              · rw [if_neg hkn]
                exact hmono2 k d2 hk
            · rw [alistLookup_upsert, if_pos rfl]
            · intro x hx
              obtain ⟨hxn, hxv2⟩ := (hnd2.mem_erase_iff).mp hx
              rcases hpost2 x hxv2 with hs | hx0
              · left
                have hnx : ¬ n = x := fun hh => hxn hh.symm
                rw [alistLookup_upsert, if_neg hnx]
                exact hs
              · rcases List.mem_cons.mp hx0 with rfl | hxv
                · exact absurd rfl hxn
                · right
                  exact hxv
            · intro x hx
              have hxn : x ≠ n := by
                intro he
                rw [he] at hx
                exact hv hx
              exact (hnd2.mem_erase_iff).mpr ⟨hxn, hsub2 x (List.mem_cons_of_mem n hx)⟩
            · exact hnd2.erase n

theorem dfsTopFold_acyclic (g : List (String × List String)) (hacy : AcyclicG g) :
    ∀ (keys : List String) (m0 : Nat) (v0 : List String) (dp0 : List (String × Nat))
      (r : Nat × List String × List (String × Nat)),
      (∀ k dd, alistLookup dp0 k = some dd → DepthR g k dd) →
      (∀ x ∈ v0, (alistLookup dp0 x).isSome = true) →
      v0.Nodup →
      List.foldl (dfsStep (fun v dp d => dfsGo g (g.length + 1) v dp d))
        (some (m0, v0, dp0)) keys = some r →
      ∃ f : String → Nat, (∀ k ∈ keys, DepthR g k (f k)) ∧
        r.1 = List.foldl (fun acc k => max acc (f k)) m0 keys := by
  intro keys
  induction keys with
  | nil =>
    intro m0 v0 dp0 r _ _ _ h
    simp only [List.foldl_nil] at h
    cases h
    exact ⟨fun _ => 0, fun k hk => absurd hk (List.not_mem_nil k), rfl⟩
  | cons c rest ih =>
    intro m0 v0 dp0 r hDS hv0 hnd h
    simp only [List.foldl_cons] at h
    rw [show dfsStep (fun v dp d => dfsGo g (g.length + 1) v dp d) (some (m0, v0, dp0)) c =
        (match dfsGo g (g.length + 1) v0 dp0 c with
         | none => none
         | some (d1, v1, dp1) => some (max m0 d1, v1, dp1)) from rfl] at h
    cases hc : dfsGo g (g.length + 1) v0 dp0 c with
    | none => rw [hc, dfsFold_none] at h; cases h
    | some tr =>
      obtain ⟨d1, v1, dp1⟩ := tr
      rw [hc] at h
      have hanc : ∀ x ∈ v0, (alistLookup dp0 x).isSome = true ∨
          Relation.TransGen (EdgeG g) x c :=
        fun x hx => Or.inl (hv0 x hx)
      obtain ⟨hd1, hDS1, hmono1, hself1, hsub1, hsup1, hnd1⟩ :=
        dfsGo_acyclic g hacy (g.length + 1) v0 dp0 c (d1, v1, dp1) hDS hanc hnd hc
      have hv1 : ∀ x ∈ v1, (alistLookup dp1 x).isSome = true := by
        intro x hx
        rcases hsub1 x hx with hs | hxv
        · exact hs
        · obtain ⟨dd, hdd⟩ := Option.isSome_iff_exists.mp (hv0 x hxv)
          exact Option.isSome_iff_exists.mpr ⟨dd, hmono1 x dd hdd⟩
      obtain ⟨f', hf', hr1⟩ := ih (max m0 d1) v1 dp1 r hDS1 hv1 hnd1 h
      refine ⟨fun x => if x = c then d1 else f' x, ?_, ?_⟩
      · intro d hd
        rcases List.mem_cons.mp hd with rfl | hd'
        · simpa using hd1
        · show DepthR g d (if d = c then d1 else f' d)
          by_cases hdc : d = c
          · subst hdc
            simpa using hd1
          · rw [if_neg hdc]
            exact hf' d hd'
      · rw [hr1]
        exact (foldl_max_override f' d1 c rest
          (fun d hd hdc => by
            subst hdc
            exact depthR_func g d (f' d) (hf' d hd) d1
              (by simpa using hd1)) m0).symm

theorem gr3_acyclic : AcyclicG gr3 := by
  intro x
  apply acyclic_of_single_edge "c2" "c1" ?_ (by decide) x
  intro a b h
  have hab : b ∈ depsOf gr3 a := h
  by_cases ha2 : "c2" = a
  · subst ha2
    refine ⟨rfl, ?_⟩
    have hb : b ∈ ["c1"] := hab
    simpa using hb
  · exfalso
    by_cases ha1 : "c1" = a
    · subst ha1
      exact absurd hab (List.not_mem_nil b)
    · have hnil : depsOf gr3 a = [] := by
        simp [depsOf, gr3, alistLookup, ha1, ha2]
      rw [hnil] at hab
      exact absurd hab (List.not_mem_nil b)

/-- C5: on every acyclic dependency graph `calculateMaxDepth` agrees with the
recursive reference depth `DepthR` (leaves have depth 1, inner nodes 1 plus
the maximum depth of their dependencies): it returns exactly the maximum of
the reference depths over the graph's keys.  In particular, in the scenario
state `st3` (problem `p1`, component `c1` with no dependencies, component
`c2` depending on `c1`) the `calculateMetrics` action reports
`componentCount = 2`, `maxDepth = 2` and `dependencyCount = 1`. -/
theorem calculateMaxDepth_matches_reference :
    (∀ g : List (String × List String), AcyclicG g →
      ∃ f : String → Nat, (∀ k ∈ g.map Prod.fst, DepthR g k (f k)) ∧
        calculateMaxDepth g = some (maxList ((g.map Prod.fst).map f))) ∧
    (∃ m : DecompositionMetrics,
      (processRequest st3 (Request.calculateMetricsAction "p1") 9).1 =
        Except.ok (Payload.metricsRes m) ∧
      m.componentCount = 2 ∧ m.maxDepth = 2 ∧ m.dependencyCount = 1) := by
  constructor
  · intro g hacy
    have hb : remKeys g [] < g.length + 1 := Nat.lt_succ_of_le (remKeys_nil_le g)
    have htot := dfsFold_total g (g.length + 1)
      (fun v dp n hb => dfsGo_total g (g.length + 1) v dp n hb)
      (g.map Prod.fst) 0 [] [] hb
    unfold calculateMaxDepth
    cases hf : List.foldl (dfsStep (fun v dp d => dfsGo g (g.length + 1) v dp d))
        (some (0, [], [])) (g.map Prod.fst) with
    | none => exact absurd hf htot
    | some tr =>
      obtain ⟨m, v, dp⟩ := tr
      obtain ⟨f, hfk, hm⟩ := dfsTopFold_acyclic g hacy (g.map Prod.fst) 0 [] [] (m, v, dp)
        (fun k dd hk => Option.noConfusion hk)
        (fun x hx => absurd hx (List.not_mem_nil x)) List.nodup_nil hf
      refine ⟨f, hfk, ?_⟩
      have hm2 : m = List.foldl (fun acc k => max acc (f k)) 0 (g.map Prod.fst) := hm
      have hml : maxList ((g.map Prod.fst).map f) =
          List.foldl (fun acc k => max acc (f k)) 0 (g.map Prod.fst) := by
        unfold maxList
        rw [List.foldl_map]
      show some m = some (maxList ((g.map Prod.fst).map f))
      rw [hm2, hml]
  · exact ⟨calculateMetricsFn st3 "p1", rfl, rfl, rfl, rfl⟩

/-- Witness for C5: the scenario graph `gr3` (`c1` a leaf, `c2 → c1`) is
acyclic, and the first conjunct applies to it. -/
theorem calculateMaxDepth_matches_reference_witness :
    AcyclicG gr3 ∧
    (∃ f : String → Nat, (∀ k ∈ gr3.map Prod.fst, DepthR gr3 k (f k)) ∧
      calculateMaxDepth gr3 = some (maxList ((gr3.map Prod.fst).map f))) :=
  ⟨gr3_acyclic, calculateMaxDepth_matches_reference.1 gr3 gr3_acyclic⟩

theorem balanceScore_two_key (c1 c2 : ComponentData)
    (hne : c1.componentId ≠ c2.componentId)
    (h1 : c1.dependencies = []) (h2 : c2.dependencies = [c1.componentId]) :
    calculateBalanceScore [c1, c2] (buildDependencyGraph [c1, c2]) = 5 := by
  have hg : buildDependencyGraph [c1, c2] =
      [(c1.componentId, []), (c2.componentId, [c1.componentId])] := by
    simp [buildDependencyGraph, alistUpsert, h1, h2, hne]
  rw [hg]
  unfold calculateBalanceScore
  rw [if_neg (by simp)]
  simp [inDegreeIncr, alistLookup, alistUpsert, hne]
  have ha : ((1:ℝ) - 2⁻¹) ^ 2 + (((2:ℝ) ^ 2)⁻¹) = (1/2 : ℝ) := by norm_num
  rw [ha]
  rw [← Real.sqrt_div (by norm_num : (0:ℝ) ≤ 1/2) 2]
  have hb : (1/2 : ℝ) / 2 = (1/2)^2 := by norm_num
  rw [hb, Real.sqrt_sq (by norm_num : (0:ℝ) ≤ 1/2)]
  norm_num

/-- C7: `calculateBalanceScore` returns exactly 10 for every decomposition
with a single component, and for two distinct components where one depends
on the other (in-degrees `{1, 0}`, population standard deviation `1/2`,
`n - 1 = 1`) the clamped formula `max 1 (min 10 (10 * (1 - σ/(n-1))))`
yields exactly 5, strictly less than 10. -/
theorem balanceScore_single_and_two_components :
    (∀ (c : ComponentData) (g : List (String × List String)),
      calculateBalanceScore [c] g = 10) ∧
    (∀ c1 c2 : ComponentData, c1.componentId ≠ c2.componentId →
      c1.dependencies = [] → c2.dependencies = [c1.componentId] →
      calculateBalanceScore [c1, c2] (buildDependencyGraph [c1, c2]) = 5 ∧
      calculateBalanceScore [c1, c2] (buildDependencyGraph [c1, c2]) < 10) := by
  constructor
  · intro c g
    unfold calculateBalanceScore
    rw [if_pos (by simp)]
  · intro c1 c2 hne h1 h2
    refine ⟨balanceScore_two_key c1 c2 hne h1 h2, ?_⟩
    rw [balanceScore_two_key c1 c2 hne h1 h2]
    norm_num

/-- Witness for C7: the concrete components `cw1` (a leaf) and `cw2`
(depending on `cw1`) give a single-component score of 10 and a
two-component score of 5. -/
theorem balanceScore_single_and_two_components_witness :
    (calculateBalanceScore [cw1] gr3 = 10) ∧
    (cw1.componentId ≠ cw2.componentId ∧ cw1.dependencies = [] ∧
      cw2.dependencies = [cw1.componentId] ∧
      (calculateBalanceScore [cw1, cw2] (buildDependencyGraph [cw1, cw2]) = 5 ∧
       calculateBalanceScore [cw1, cw2] (buildDependencyGraph [cw1, cw2]) < 10)) :=
  ⟨balanceScore_single_and_two_components.1 cw1 gr3,
   by decide, by decide, by decide,
   balanceScore_single_and_two_components.2 cw1 cw2 (by decide) (by decide) (by decide)⟩

theorem findPhaseIdx_none_iff (l : List DecompositionPhase) (pid : String) :
    findPhaseIdx l pid = none ↔ ∀ ph ∈ l, ph.phaseId ≠ pid := by
  induction l with
  | nil => simp [findPhaseIdx]
  | cons q rest ih =>
    simp only [findPhaseIdx]
    by_cases h : q.phaseId = pid
    · rw [if_pos h]
      simp [h]
    · rw [if_neg h]
      constructor
      · intro hm
        have hrest : findPhaseIdx rest pid = none := by
          cases hq : findPhaseIdx rest pid with
          | none => rfl
          | some p => rw [hq] at hm; cases hm
        intro z hz
        rcases List.mem_cons.mp hz with rfl | hz2
        · exact h
        · exact (ih.mp hrest) z hz2
      · intro hall
        have hrest : findPhaseIdx rest pid = none :=
          ih.mpr (fun z hz => hall z (List.mem_cons_of_mem q hz))
        rw [hrest]
        rfl

theorem findPhaseIdx_some_spec (l : List DecompositionPhase) (pid : String) :
    ∀ i ph, findPhaseIdx l pid = some (i, ph) → l[i]? = some ph ∧ ph.phaseId = pid := by
  induction l with
  | nil => intro i ph h; cases h
  | cons q rest ih =>
    intro i ph h
    simp only [findPhaseIdx] at h
    by_cases hq : q.phaseId = pid
    · rw [if_pos hq] at h
      injection h with h2
      cases h2
      exact ⟨by simp, hq⟩
    · rw [if_neg hq] at h
      cases hr : findPhaseIdx rest pid with
      | none => rw [hr] at h; cases h
      | some p =>
        obtain ⟨i0, ph0⟩ := p
        rw [hr] at h
        injection h with h2
        cases h2
        obtain ⟨hg, hid⟩ := ih i0 ph0 hr
        exact ⟨by simpa using hg, hid⟩

/-- C9: `completePhase(phaseId, problemId)` (well-formed ids) fails with the
not-found error when no phase with that id is in the history (the scan
`findPhaseIdx` finds none exactly in that case) or when the Problem does not
exist, leaving the state unchanged; on success it returns and stores, at the
found phase's index, that phase with `completedAt` set to the current time
and `metrics` overwritten by `calculateMetrics(problemId)` computed in the
pre-call state, and every other phase of the history is unchanged. -/
theorem completePhase_semantics (s : DecompositionState) (phaseId problemId : String)
    (t : Nat) (hp : phaseId ≠ "") (hq : problemId ≠ "") :
    completePhaseSpec s phaseId problemId t := by
  refine ⟨findPhaseIdx_none_iff _ _, ?_, ?_, ?_⟩
  · intro hnone
    simp only [processRequest, processRequestE]
    rw [if_neg hp, if_neg hq, hnone]
  · intro i ph hfind hmiss
    simp only [processRequest, processRequestE]
    rw [if_neg hp, if_neg hq, hfind, hmiss]
    rfl
  · intro i ph hfind hsome
    obtain ⟨hgi, hpid⟩ := findPhaseIdx_some_spec _ _ i ph hfind
    have hproc : processRequest s (Request.completePhase phaseId problemId) t =
        (Except.ok
          (Payload.phaseRes ("Phase " ++ ph.phaseName ++ " completed successfully")
            { ph with completedAt := some t, metrics := calculateMetricsFn s problemId }),
         { s with decompositionPhases := s.decompositionPhases.set i { ph with completedAt := some t, metrics := calculateMetricsFn s problemId } }) := by
      simp only [processRequest, processRequestE]
      rw [if_neg hp, if_neg hq, hfind, hsome]
      rfl
    have hlt : i < s.decompositionPhases.length := by
      by_contra hge
      rw [List.getElem?_eq_none (Nat.le_of_not_lt hge)] at hgi
      cases hgi
    refine ⟨hgi, hpid, hproc, ?_, ?_⟩
    · intro j hj
      rw [hproc]
      exact List.getElem?_set_ne (fun he => hj he.symm)
    · rw [hproc]
      exact List.getElem?_set_eq_of_lt _ hlt

/-- Witness for C9: in the scenario state with the open phase `ph1` over
problem `p1`, the `completePhase` semantics applies at time 9. -/
theorem completePhase_semantics_witness :
    ("ph1" : String) ≠ "" ∧ ("p1" : String) ≠ "" ∧
    completePhaseSpec stPhase "ph1" "p1" 9 :=
  ⟨by decide, by decide,
   completePhase_semantics stPhase "ph1" "p1" 9 (by decide) (by decide)⟩

end ThinkingPatterns
